import Mathlib

/-!
Shallow embedding of the ISLE rule-verification engine ("veri") and proofs
about its specification claims.

The definitions below are translated from the Rust sources:
  * `types.rs`   — value types, model types (`Compound`), constants;
  * `veri.rs`    — symbolic values, the expression table and the
                   verification-condition builder (`ConditionsBuilder`);
  * `solver.rs`  — the solver adapter: constant encoding/decoding, rotate
                   encoding, bit-manipulation intrinsic dispatch, and the
                   applicability / verification verdict mapping;
  * `runner.rs`  — how solver verdicts are routed into run outcomes.

Conventions of the embedding: Rust `usize`/`u128`/`BigUint` become `Nat`,
`i128` becomes `Int` (the claims under study never exercise fixed-width
overflow of these índices), `Result<T>` becomes `Except String T`, panics
(`unimplemented!`, `todo!`, `assert!`) become distinguishable error values,
and hash maps become association lists (insertion shadows, as map insert
overwrites).  Source-position / diagnostics bookkeeping (`position_stack`,
`pos` maps) is omitted: it only decorates errors and never affects the built
conditions.
-/

namespace Veri

/-- Width of a bit vector (`types.rs::Width`). -/
inductive Width where
  | unknown
  | bits (n : Nat)
deriving DecidableEq, Repr

/-- Value types (`types.rs::Type`; named `Ty` because `Type` is reserved). -/
inductive Ty where
  | unspecified
  | unknown
  | bitVector (w : Width)
  | int
  | bool
  | unit
deriving DecidableEq, Repr

/-- Constants (`types.rs::Const`).  The `i128` payload of `Int` is modelled
as `Int`, and the bit-vector payload as `Nat`. -/
inductive Const where
  | bool (b : Bool)
  | int (v : Int)
  | bitVector (w : Nat) (v : Nat)
  | unspecified
deriving DecidableEq, Repr

/-! ## Type models and named-type resolution (`types.rs::Compound`) -/

/-- Model types (`types.rs::Compound`).  A struct field is `(name, type)`;
an enum variant is `(name, variant id, fields)`. -/
inductive Compound where
  | primitive (ty : Ty)
  | struct (fields : List (String × Compound))
  | enum (name : String) (id : Nat) (variants : List (String × Nat × List (String × Compound)))
  | named (name : String)

mutual

/-- Fuel-indexed model of `Compound::resolve` (`types.rs`).  The source
recursion has no cycle guard (its `TODO` comment notes missing "named type
model cycle detection"), so we bound it by fuel: `none` means the recursion
did not finish within the given depth — for a cyclic environment it never
finishes for any fuel.  `lookup` models the `FnMut(&Ident) -> Result<Compound>`
closure. -/
def resolveF (lookup : String → Except String Compound) :
    Nat → Compound → Option (Except String Compound)
  | 0, _ => none
  | _ + 1, .primitive ty => some (.ok (.primitive ty))
  | fuel + 1, .struct fields =>
      match resolveFieldsF lookup fuel fields with
      | none => none
      | some (.error e) => some (.error e)
      | some (.ok fs) => some (.ok (.struct fs))
  | fuel + 1, .enum name id variants =>
      match resolveVariantsF lookup fuel variants with
      | none => none
      | some (.error e) => some (.error e)
      | some (.ok vs) => some (.ok (.enum name id vs))
  | fuel + 1, .named name =>
      match lookup name with
      | .error e => some (.error e)
      | .ok ty => resolveF lookup fuel ty

def resolveFieldsF (lookup : String → Except String Compound) :
    Nat → List (String × Compound) → Option (Except String (List (String × Compound)))
  | _, [] => some (.ok [])
  | fuel, (name, ty) :: rest =>
      match resolveF lookup fuel ty with
      | none => none
      | some (.error e) => some (.error e)
      | some (.ok ty') =>
          match resolveFieldsF lookup fuel rest with
          | none => none
          | some (.error e) => some (.error e)
          | some (.ok rest') => some (.ok ((name, ty') :: rest'))

def resolveVariantsF (lookup : String → Except String Compound) :
    Nat → List (String × Nat × List (String × Compound)) →
    Option (Except String (List (String × Nat × List (String × Compound))))
  | _, [] => some (.ok [])
  | fuel, (name, id, fields) :: rest =>
      match resolveFieldsF lookup fuel fields with
      | none => none
      | some (.error e) => some (.error e)
      | some (.ok fields') =>
          match resolveVariantsF lookup fuel rest with
          | none => none
          | some (.error e) => some (.error e)
          | some (.ok rest') => some (.ok ((name, id, fields') :: rest'))

end

/-- A self-referential named-type environment: the model for name `"A"` is
the named reference `"A"` itself.  Such an environment is expressible with
`(model A (type A))`-style declarations resolved by name. -/
def cyclicLookup : String → Except String Compound :=
  fun _ => .ok (.named "A")

/-! ## Solver verdicts (`solver.rs`, `runner.rs`) -/

/-- SMT solver check-sat responses (`easy_smt::Response`). -/
inductive Response where
  | sat
  | unsat
  | unknown
deriving DecidableEq, Repr

/-- Applicability verdicts (`solver.rs::Applicability`). -/
inductive Applicability where
  | applicable
  | inapplicable
  | unknown
deriving DecidableEq, Repr

/-- Model decoded from the solver; keyed by expression id (`veri.rs::Model`). -/
def Model := List (Nat × Const)

/-- Verification verdicts (`solver.rs::Verification`). -/
inductive Verification where
  | success
  | failure (m : Model)
  | unknown

/-- Mapping of the applicability check-sat response to a verdict
(`solver.rs::Solver::check_assumptions_feasibility`, the `match self.smt.check()`).
The solver dialogue itself is external I/O; its response is the argument. -/
def checkAssumptionsFeasibility (r : Response) : Applicability :=
  match r with
  | .sat => .applicable
  | .unsat => .inapplicable
  | .unknown => .unknown

/-- Mapping of the verification check-sat response to a verdict
(`solver.rs::Solver::check_verification_condition`).  On `Sat` the source
decodes a model with `self.model()?`; that decoded model is the argument `m`. -/
def checkVerificationCondition (r : Response) (m : Model) : Verification :=
  match r with
  | .sat => .failure m
  | .unsat => .success
  | .unknown => .unknown

/-- Per-type-instantiation verdicts (`runner.rs::Verdict`). -/
inductive Verdict where
  | success
  | inapplicable
  | unknown
deriving DecidableEq, Repr

/-- The solver phase of `runner.rs::Runner::verify_expansion_type_instantiation`:
run the applicability check, and only if applicable run the verification
check.  `ar`/`vr` are the solver's check-sat responses for the two phases and
`m` the model decoded on a `Sat` verification response.  Timing fields of
`VerifyReport` are omitted; the verdict is returned. -/
def runnerVerify (ar : Response) (vr : Response) (m : Model) : Except String Verdict :=
  match checkAssumptionsFeasibility ar with
  | .inapplicable => .ok .inapplicable
  | .unknown => .error "could not prove applicability"
  | .applicable =>
      match checkVerificationCondition vr m with
      | .failure _ => .error "verification failed"
      | .success => .ok .success
      | .unknown => .ok .unknown

/-! ## Bit-manipulation intrinsic dispatch (`solver.rs::Solver::expr_to_smt`) -/

/-- The four bit-manipulation intrinsics encoded as explicit circuits. -/
inductive BitManipOp where
  | cls
  | clz
  | rev
  | popcnt
deriving DecidableEq, Repr

/-- Result of the width dispatch in `expr_to_smt` for a bit-manipulation
intrinsic: either the name of the width-specialized circuit emitted, or the
`unimplemented!` panic branch. -/
inductive EncodeResult where
  | emitted (circuit : String)
  | unimplementedWidth
deriving DecidableEq, Repr

/-- The width `match` arms of `expr_to_smt` for `Cls`, `Clz`, `Rev` and
`Popcnt` (`solver.rs`).  `Popcnt` routes widths 8/16/32/64 through the one
`popcnt` builder, parameterized by width. -/
def exprToSmtBitManip (op : BitManipOp) (width : Nat) : EncodeResult :=
  match op, width with
  | .cls, 8 => .emitted "cls8"
  | .cls, 16 => .emitted "cls16"
  | .cls, 32 => .emitted "cls32"
  | .cls, 64 => .emitted "cls64"
  | .cls, _ => .unimplementedWidth
  | .clz, 1 => .emitted "clz1"
  | .clz, 8 => .emitted "clz8"
  | .clz, 16 => .emitted "clz16"
  | .clz, 32 => .emitted "clz32"
  | .clz, 64 => .emitted "clz64"
  | .clz, _ => .unimplementedWidth
  | .rev, 1 => .emitted "rev1"
  | .rev, 8 => .emitted "rev8"
  | .rev, 16 => .emitted "rev16"
  | .rev, 32 => .emitted "rev32"
  | .rev, 64 => .emitted "rev64"
  | .rev, _ => .unimplementedWidth
  | .popcnt, 8 => .emitted "popcnt"
  | .popcnt, 16 => .emitted "popcnt"
  | .popcnt, 32 => .emitted "popcnt"
  | .popcnt, 64 => .emitted "popcnt"
  | .popcnt, _ => .unimplementedWidth

/-! ## Theorems for claims C5, C8, C9 -/

/-- C9: the claim says `Compound::resolve` "either returns a resolved type or
reports an error for unresolved cycles; it never recurses forever".  The code
has no cycle guard: on the self-referential environment `cyclicLookup`
(resolving the named type `"A"` to `Named("A")`), the resolution of
`Named("A")` exceeds every recursion depth — it never produces a result nor
an error, i.e. it recurses forever.  This confirms the divergence at the
failing input; the spec's intent (flag cycles as a fatal error) is what the
source's own `TODO(mbm): named type model cycle detection` comment records
as missing. -/
theorem c9_resolve_diverges_on_cyclic_environment :
    ∀ fuel, resolveF cyclicLookup fuel (.named "A") = none := by
  intro fuel
  induction fuel with
  | zero => simp [resolveF]
  | succ n ih => simp [resolveF, cyclicLookup, ih]

/-- C5: solver responses map to verdicts asymmetrically across the two
phases.  Applicability (`check_assumptions_feasibility` + the runner match):
`Sat ↦ Applicable`, `Unsat ↦ Inapplicable`, and an `Unknown` response makes
the run fail with an error, without the verification check being attempted
(the outcome is independent of the verification response).  Verification
(`check_verification_condition` + the runner match): `Unsat ↦ Success`,
`Sat ↦ Failure` with the decoded model, and `Unknown` yields the non-fatal
`Verdict.unknown` rather than an error. -/
theorem c5_verdict_mapping_asymmetry :
    (checkAssumptionsFeasibility .sat = .applicable)
    ∧ (checkAssumptionsFeasibility .unsat = .inapplicable)
    ∧ (∀ vr m, runnerVerify .unknown vr m = .error "could not prove applicability")
    ∧ (∀ vr vr' m m', runnerVerify .unknown vr m = runnerVerify .unknown vr' m')
    ∧ (∀ m, checkVerificationCondition .unsat m = .success)
    ∧ (∀ m, checkVerificationCondition .sat m = .failure m)
    ∧ (∀ m, checkVerificationCondition .unknown m = .unknown)
    ∧ (∀ m, runnerVerify .sat .unknown m = .ok .unknown)
    ∧ (∀ vr m, runnerVerify .unsat vr m = .ok .inapplicable)
    ∧ (∀ m, runnerVerify .sat .unsat m = .ok .success) := by
  refine ⟨rfl, rfl, ?_, ?_, ?_, ?_, ?_, ?_, ?_, ?_⟩ <;> intros <;> rfl

/-- C8 as stated is false: `expr_to_smt` reaches the `unimplemented!` panic
branch for the count-leading-sign-bits (`Cls`) intrinsic at operand width 1,
and likewise for population count (`Popcnt`) at width 1. -/
theorem c8_counterexample_cls_popcnt_width1 :
    exprToSmtBitManip .cls 1 = .unimplementedWidth
    ∧ exprToSmtBitManip .popcnt 1 = .unimplementedWidth := by
  exact ⟨rfl, rfl⟩

/-- C8 (amended): the count-leading-zeros and bit-reversal intrinsics emit a
fixed width-specialized circuit for every operand width in {1, 8, 16, 32, 64},
while count-leading-sign-bits and population count do so only for widths in
{8, 16, 32, 64}; outside these widths the dispatch reaches the
`unimplemented!` branch. -/
theorem c8_bit_manip_width_dispatch :
    (∀ w ∈ ([1, 8, 16, 32, 64] : List Nat),
      (∃ c, exprToSmtBitManip .clz w = .emitted c)
      ∧ (∃ c, exprToSmtBitManip .rev w = .emitted c))
    ∧ (∀ w ∈ ([8, 16, 32, 64] : List Nat),
      (∃ c, exprToSmtBitManip .cls w = .emitted c)
      ∧ (exprToSmtBitManip .popcnt w = .emitted "popcnt"))
    ∧ (∀ w, w ∉ ([1, 8, 16, 32, 64] : List Nat) →
      exprToSmtBitManip .clz w = .unimplementedWidth
      ∧ exprToSmtBitManip .rev w = .unimplementedWidth)
    ∧ (∀ w, w ∉ ([8, 16, 32, 64] : List Nat) →
      exprToSmtBitManip .cls w = .unimplementedWidth
      ∧ exprToSmtBitManip .popcnt w = .unimplementedWidth) := by
  refine ⟨?_, ?_, ?_, ?_⟩
  · intro w hw
    fin_cases hw <;> exact ⟨⟨_, rfl⟩, ⟨_, rfl⟩⟩
  · intro w hw
    fin_cases hw <;> exact ⟨⟨_, rfl⟩, rfl⟩
  · intro w hw
    simp only [List.mem_cons, List.not_mem_nil, or_false, not_or] at hw
    obtain ⟨h1, h8, h16, h32, h64⟩ := hw
    unfold exprToSmtBitManip
    constructor <;>
      · split
        all_goals first
          | rfl
          | omega
          | simp_all
  · intro w hw
    simp only [List.mem_cons, List.not_mem_nil, or_false, not_or] at hw
    obtain ⟨h8, h16, h32, h64⟩ := hw
    unfold exprToSmtBitManip
    constructor <;>
      · split
        all_goals first
          | rfl
          | omega
          | simp_all

/-- C8 witness: instantiating the amended dispatch theorem at width 8. -/
theorem c8_bit_manip_width_dispatch_witness :
    (∃ c, exprToSmtBitManip .clz 8 = .emitted c)
    ∧ (exprToSmtBitManip .popcnt 8 = .emitted "popcnt") :=
  ⟨(c8_bit_manip_width_dispatch.1 8 (by decide)).1,
   (c8_bit_manip_width_dispatch.2.1 8 (by decide)).2⟩

/-! ## Expressions and the verification-condition builder (`veri.rs`) -/

set_option maxHeartbeats 1600000 in
/-- Scalar logic/arithmetic expressions (`veri.rs::Expr`).  Expression and
variable ids (`ExprId`, `VariableId`) are `Nat` indices into the `Conditions`
tables.  The floating-point family of constructors (`ToFP` through
`FPIsPositive`, thirty-three further kinds) is omitted from the embedding:
none is reachable from the claims under study, every one of them is pure
(they all fall to the same wildcard arm of `Expr::pure` as the constructors
kept here), and each is an opaque one- or two-operand node like the ones
retained. -/
inductive Expr where
  | constE (c : Const)
  | variable (v : Nat)
  | not (x : Nat)
  | and (x y : Nat)
  | or (x y : Nat)
  | imp (x y : Nat)
  | eq (x y : Nat)
  | lt (x y : Nat)
  | lte (x y : Nat)
  | bvUgt (x y : Nat)
  | bvUge (x y : Nat)
  | bvUlt (x y : Nat)
  | bvUle (x y : Nat)
  | bvSgt (x y : Nat)
  | bvSge (x y : Nat)
  | bvSlt (x y : Nat)
  | bvSle (x y : Nat)
  | bvSaddo (x y : Nat)
  | bvNot (x : Nat)
  | bvNeg (x : Nat)
  | cls (x : Nat)
  | clz (x : Nat)
  | rev (x : Nat)
  | popcnt (x : Nat)
  | add (x y : Nat)
  | sub (x y : Nat)
  | mul (x y : Nat)
  | bvAdd (x y : Nat)
  | bvSub (x y : Nat)
  | bvMul (x y : Nat)
  | bvSDiv (x y : Nat)
  | bvUDiv (x y : Nat)
  | bvSRem (x y : Nat)
  | bvURem (x y : Nat)
  | bvAnd (x y : Nat)
  | bvOr (x y : Nat)
  | bvXor (x y : Nat)
  | bvShl (x y : Nat)
  | bvLShr (x y : Nat)
  | bvAShr (x y : Nat)
  | bvRotl (x y : Nat)
  | bvRotr (x y : Nat)
  | conditional (c t e : Nat)
  | bvZeroExt (w x : Nat)
  | bvSignExt (w x : Nat)
  | bvConvTo (w x : Nat)
  | bvExtract (h l : Nat) (x : Nat)
  | bvConcat (x y : Nat)
  | int2bv (w x : Nat)
  | bv2nat (x : Nat)
  | widthOf (x : Nat)

/-- Injective key of an expression: constructor tag plus payloads.  (The
automatically derived equality decision procedure for an inductive of this
width produces an impractically large term; decidable equality is instead
obtained from this encoding and its one-sided inverse below.) -/
def Expr.key : Expr → Nat × Nat × Nat × Nat × Const
  | .constE c => (0, 0, 0, 0, c)
  | .variable v => (1, v, 0, 0, .unspecified)
  | .not x => (2, x, 0, 0, .unspecified)
  | .and x y => (3, x, y, 0, .unspecified)
  | .or x y => (4, x, y, 0, .unspecified)
  | .imp x y => (5, x, y, 0, .unspecified)
  | .eq x y => (6, x, y, 0, .unspecified)
  | .lt x y => (7, x, y, 0, .unspecified)
  | .lte x y => (8, x, y, 0, .unspecified)
  | .bvUgt x y => (9, x, y, 0, .unspecified)
  | .bvUge x y => (10, x, y, 0, .unspecified)
  | .bvUlt x y => (11, x, y, 0, .unspecified)
  | .bvUle x y => (12, x, y, 0, .unspecified)
  | .bvSgt x y => (13, x, y, 0, .unspecified)
  | .bvSge x y => (14, x, y, 0, .unspecified)
  | .bvSlt x y => (15, x, y, 0, .unspecified)
  | .bvSle x y => (16, x, y, 0, .unspecified)
  | .bvSaddo x y => (17, x, y, 0, .unspecified)
  | .bvNot x => (18, x, 0, 0, .unspecified)
  | .bvNeg x => (19, x, 0, 0, .unspecified)
  | .cls x => (20, x, 0, 0, .unspecified)
  | .clz x => (21, x, 0, 0, .unspecified)
  | .rev x => (22, x, 0, 0, .unspecified)
  | .popcnt x => (23, x, 0, 0, .unspecified)
  | .add x y => (24, x, y, 0, .unspecified)
  | .sub x y => (25, x, y, 0, .unspecified)
  | .mul x y => (26, x, y, 0, .unspecified)
  | .bvAdd x y => (27, x, y, 0, .unspecified)
  | .bvSub x y => (28, x, y, 0, .unspecified)
  | .bvMul x y => (29, x, y, 0, .unspecified)
  | .bvSDiv x y => (30, x, y, 0, .unspecified)
  | .bvUDiv x y => (31, x, y, 0, .unspecified)
  | .bvSRem x y => (32, x, y, 0, .unspecified)
  | .bvURem x y => (33, x, y, 0, .unspecified)
  | .bvAnd x y => (34, x, y, 0, .unspecified)
  | .bvOr x y => (35, x, y, 0, .unspecified)
  | .bvXor x y => (36, x, y, 0, .unspecified)
  | .bvShl x y => (37, x, y, 0, .unspecified)
  | .bvLShr x y => (38, x, y, 0, .unspecified)
  | .bvAShr x y => (39, x, y, 0, .unspecified)
  | .bvRotl x y => (40, x, y, 0, .unspecified)
  | .bvRotr x y => (41, x, y, 0, .unspecified)
  | .conditional c t e => (42, c, t, e, .unspecified)
  | .bvZeroExt w x => (43, w, x, 0, .unspecified)
  | .bvSignExt w x => (44, w, x, 0, .unspecified)
  | .bvConvTo w x => (45, w, x, 0, .unspecified)
  | .bvExtract h l x => (46, h, l, x, .unspecified)
  | .bvConcat x y => (47, x, y, 0, .unspecified)
  | .int2bv w x => (48, w, x, 0, .unspecified)
  | .bv2nat x => (49, x, 0, 0, .unspecified)
  | .widthOf x => (50, x, 0, 0, .unspecified)

/-- One-sided inverse of `Expr.key`. -/
def Expr.unkey : Nat × Nat × Nat × Nat × Const → Option Expr
  | (0, _, _, _, c) => some (.constE c)
  | (1, v, _, _, _) => some (.variable v)
  | (2, x, _, _, _) => some (.not x)
  | (3, x, y, _, _) => some (.and x y)
  | (4, x, y, _, _) => some (.or x y)
  | (5, x, y, _, _) => some (.imp x y)
  | (6, x, y, _, _) => some (.eq x y)
  | (7, x, y, _, _) => some (.lt x y)
  | (8, x, y, _, _) => some (.lte x y)
  | (9, x, y, _, _) => some (.bvUgt x y)
  | (10, x, y, _, _) => some (.bvUge x y)
  | (11, x, y, _, _) => some (.bvUlt x y)
  | (12, x, y, _, _) => some (.bvUle x y)
  | (13, x, y, _, _) => some (.bvSgt x y)
  | (14, x, y, _, _) => some (.bvSge x y)
  | (15, x, y, _, _) => some (.bvSlt x y)
  | (16, x, y, _, _) => some (.bvSle x y)
  | (17, x, y, _, _) => some (.bvSaddo x y)
  | (18, x, _, _, _) => some (.bvNot x)
  | (19, x, _, _, _) => some (.bvNeg x)
  | (20, x, _, _, _) => some (.cls x)
  | (21, x, _, _, _) => some (.clz x)
  | (22, x, _, _, _) => some (.rev x)
  | (23, x, _, _, _) => some (.popcnt x)
  | (24, x, y, _, _) => some (.add x y)
  | (25, x, y, _, _) => some (.sub x y)
  | (26, x, y, _, _) => some (.mul x y)
  | (27, x, y, _, _) => some (.bvAdd x y)
  | (28, x, y, _, _) => some (.bvSub x y)
  | (29, x, y, _, _) => some (.bvMul x y)
  | (30, x, y, _, _) => some (.bvSDiv x y)
  | (31, x, y, _, _) => some (.bvUDiv x y)
  | (32, x, y, _, _) => some (.bvSRem x y)
  | (33, x, y, _, _) => some (.bvURem x y)
  | (34, x, y, _, _) => some (.bvAnd x y)
  | (35, x, y, _, _) => some (.bvOr x y)
  | (36, x, y, _, _) => some (.bvXor x y)
  | (37, x, y, _, _) => some (.bvShl x y)
  | (38, x, y, _, _) => some (.bvLShr x y)
  | (39, x, y, _, _) => some (.bvAShr x y)
  | (40, x, y, _, _) => some (.bvRotl x y)
  | (41, x, y, _, _) => some (.bvRotr x y)
  | (42, c, t, e, _) => some (.conditional c t e)
  | (43, w, x, _, _) => some (.bvZeroExt w x)
  | (44, w, x, _, _) => some (.bvSignExt w x)
  | (45, w, x, _, _) => some (.bvConvTo w x)
  | (46, h, l, x, _) => some (.bvExtract h l x)
  | (47, x, y, _, _) => some (.bvConcat x y)
  | (48, w, x, _, _) => some (.int2bv w x)
  | (49, x, _, _, _) => some (.bv2nat x)
  | (50, x, _, _, _) => some (.widthOf x)
  | _ => none

theorem Expr.unkey_key : ∀ e : Expr, Expr.unkey (Expr.key e) = some e := by
  intro e
  cases e <;> rfl

instance : DecidableEq Expr := fun a b =>
  decidable_of_iff (Expr.key a = Expr.key b)
    ⟨fun h => by
      have h2 := congrArg Expr.unkey h
      rw [Expr.unkey_key, Expr.unkey_key] at h2
      exact Option.some.inj h2,
    fun h => by rw [h]⟩

/-- Purity of an expression (`veri.rs::Expr::pure`): only the explicit
bit-width reinterpretation `BVConvTo` is impure. -/
def Expr.pure : Expr → Bool
  | .bvConvTo _ _ => false
  | _ => true

/-- Whether the expression is a variable (`veri.rs::Expr::is_variable`). -/
def Expr.isVariable : Expr → Bool
  | .variable _ => true
  | _ => false

/-- Symbolic values (`veri.rs::Symbolic`).  A struct field is
`(name, value)`; an enum variant is `(name, variant id, declared
discriminant, value)` mirroring `SymbolicVariant`; an enum carries its ISLE
type id, the discriminant expression id, and its variants, mirroring
`SymbolicEnum`; an option carries the boolean is-some expression id and the
inner value.  The `Macro` variant (an unevaluated spec body) is outside the
fragment exercised by the claims and is omitted. -/
inductive Symbolic where
  | scalar (x : Nat)
  | struct (fields : List (String × Symbolic))
  | enumV (ty : Nat) (discriminant : Nat) (variants : List (String × Nat × Nat × Symbolic))
  | option (someId : Nat) (inner : Symbolic)
  | tuple (elems : List Symbolic)

/-- Scalar accessor (`veri.rs::Symbolic::as_scalar`). -/
def Symbolic.asScalar : Symbolic → Option Nat
  | .scalar x => some x
  | _ => none

/-- Variable scopes for spec-expression evaluation (`veri.rs::Variables`): a
map from names to symbolic values, modelled as an association list where the
most recent binding is first. -/
def Variables := List (String × Symbolic)

/-- Lookup (`Variables::get`). -/
def Variables.get : Variables → String → Option Symbolic
  | [], _ => none
  | (n, v) :: rest, name => if n = name then some v else Variables.get rest name

/-- Lookup that fails (`Variables::expect`). -/
def Variables.expect (vars : Variables) (name : String) : Except String Symbolic :=
  match vars.get name with
  | some v => .ok v
  | none => .error ("undefined variable " ++ name)

/-- Binding a name (`Variables::set`): fails on redefinition. -/
def Variables.set (vars : Variables) (name : String) (value : Symbolic) :
    Except String Variables :=
  match vars.get name with
  | some _ => .error ("redefinition of variable " ++ name)
  | none => .ok ((name, value) :: vars)

/-- Declared variables (`veri.rs::Variable`). -/
structure VarDecl where
  ty : Ty
  name : String

/-- Recorded term call (`veri.rs::Call`).  The `signatures` field is resolved
from the spec environment purely for counterexample reporting and is omitted. -/
structure CallRec where
  term : Nat
  args : List Symbolic
  ret : Symbolic

/-- Verification conditions for an expansion (`veri.rs::Conditions`): the
deduplicated expression table, assumption and assertion roots, declared
variables (source field `variables`, renamed `varDecls` as `variables` is a
reserved token here), state-variable scope and the call log.  Qualifiers and the
position map only feed type inference and diagnostics and are omitted. -/
structure Conditions where
  exprs : List Expr
  assumptions : List Nat
  assertions : List Nat
  varDecls : List VarDecl
  state : Variables
  calls : List CallRec

/-- Builder state (`veri.rs::ConditionsBuilder`): the conditions under
construction, the structural interning map (hash-consing) and the recorded
state-modification conditions.  The map is an association list; a fresh
insert shadows like a `HashMap` insert overwrites. -/
structure CB where
  conditions : Conditions
  exprMap : List (Expr × Nat)
  stateModificationConds : List (String × List Nat)

/-- Map lookup by structural equality (`self.expr_map.get(&expr)`). -/
def exprMapGet : List (Expr × Nat) → Expr → Option Nat
  | [], _ => none
  | (e, i) :: rest, expr => if e = expr then some i else exprMapGet rest expr

/-- Lookup in the state-modification-conditions map
(`self.state_modification_conds.get(name)`). -/
def condsGet : List (String × List Nat) → String → Option (List Nat)
  | [], _ => none
  | (n, cs) :: rest, name => if n = name then some cs else condsGet rest name

/-- Hash-consing allocation (`veri.rs::ConditionsBuilder::dedup_expr`): a
pure expression is first looked up in the interning map; an impure one skips
the lookup.  On a miss the expression is appended to the table at the next
id, and the map entry is written (also for impure expressions, matching the
source, though it will never be consulted for them). -/
def CB.dedupExpr (cb : CB) (expr : Expr) : Nat × CB :=
  let maybeId := if expr.pure then exprMapGet cb.exprMap expr else none
  match maybeId with
  | some id => (id, cb)
  | none =>
      let id := cb.conditions.exprs.length
      (id, { cb with
              conditions := { cb.conditions with exprs := cb.conditions.exprs ++ [expr] },
              exprMap := (expr, id) :: cb.exprMap })

/-- Variable allocation (`veri.rs::ConditionsBuilder::alloc_variable`). -/
def CB.allocVariable (cb : CB) (ty : Ty) (name : String) : Nat × CB :=
  let v := cb.conditions.varDecls.length
  let cb := { cb with
    conditions := { cb.conditions with
                      varDecls := cb.conditions.varDecls ++ [VarDecl.mk ty name] } }
  cb.dedupExpr (.variable v)

/-- Constant interning (`veri.rs::ConditionsBuilder::constant`). -/
def CB.constant (cb : CB) (c : Const) : Nat × CB :=
  cb.dedupExpr (.constE c)

/-- Boolean constant (`veri.rs::ConditionsBuilder::boolean`). -/
def CB.boolean (cb : CB) (b : Bool) : Nat × CB :=
  cb.constant (.bool b)

/-- Equality expression (`veri.rs::ConditionsBuilder::exprs_equal`). -/
def CB.exprsEqual (cb : CB) (lhs rhs : Nat) : Nat × CB :=
  cb.dedupExpr (.eq lhs rhs)

/-- Conjunction of a list of expressions
(`veri.rs::ConditionsBuilder::all`): a left fold with `And`, or the constant
`true` when the list is empty. -/
def CB.all (cb : CB) (exprs : List Nat) : Nat × CB :=
  match exprs with
  | [] => cb.boolean true
  | e :: rest =>
      rest.foldl (fun (acc : Nat × CB) x =>
        let (a, cb) := acc
        cb.dedupExpr (.and a x)) (e, cb)

/-- Disjunction of a list of expressions
(`veri.rs::ConditionsBuilder::any`): a left fold with `Or`, or the constant
`false` when the list is empty. -/
def CB.any (cb : CB) (exprs : List Nat) : Nat × CB :=
  match exprs with
  | [] => cb.boolean false
  | e :: rest =>
      rest.foldl (fun (acc : Nat × CB) x =>
        let (a, cb) := acc
        cb.dedupExpr (.or a x)) (e, cb)

/-- Pushing an assumption (`self.conditions.assumptions.push(..)`). -/
def CB.pushAssumption (cb : CB) (x : Nat) : CB :=
  { cb with conditions :=
      { cb.conditions with assumptions := cb.conditions.assumptions ++ [x] } }

/-- Pushing an assertion (`self.conditions.assertions.push(..)`). -/
def CB.pushAssertion (cb : CB) (x : Nat) : CB :=
  { cb with conditions :=
      { cb.conditions with assertions := cb.conditions.assertions ++ [x] } }

/-- Extending assumptions (`self.conditions.assumptions.extend(..)`). -/
def CB.extendAssumptions (cb : CB) (xs : List Nat) : CB :=
  { cb with conditions :=
      { cb.conditions with assumptions := cb.conditions.assumptions ++ xs } }

/-- Extending assertions (`self.conditions.assertions.extend(..)`). -/
def CB.extendAssertions (cb : CB) (xs : List Nat) : CB :=
  { cb with conditions :=
      { cb.conditions with assertions := cb.conditions.assertions ++ xs } }

/-- The empty builder (`ConditionsBuilder::new`). -/
def CB.init : CB :=
  { conditions :=
      { exprs := [], assumptions := [], assertions := [],
        varDecls := [], state := ([] : List (String × Symbolic)), calls := [] },
    exprMap := [], stateModificationConds := [] }

/-! ## Theorems for claim C4 -/

/-- C4: interning is idempotent for pure expressions and never shares impure
ones.  For any builder state: deduplicating a pure expression twice yields
the same id and leaves the table size unchanged on the second call (in fact
the whole builder state is unchanged); deduplicating an impure expression
twice yields two distinct ids (the second is one past the first, as the
table grew).  Moreover `BVConvTo` is the only impure expression kind. -/
theorem c4_dedup_idempotent_pure_fresh_impure :
    (∀ (cb : CB) (e : Expr), e.pure = true →
      (cb.dedupExpr e).2.dedupExpr e = ((cb.dedupExpr e).1, (cb.dedupExpr e).2))
    ∧ (∀ (cb : CB) (e : Expr), e.pure = false →
      ((cb.dedupExpr e).2.dedupExpr e).1 = (cb.dedupExpr e).1 + 1
      ∧ ((cb.dedupExpr e).2.dedupExpr e).1 ≠ (cb.dedupExpr e).1
      ∧ ((cb.dedupExpr e).2.conditions.exprs.length
          = cb.conditions.exprs.length + 1))
    ∧ (∀ e : Expr, e.pure = false ↔ ∃ w x, e = .bvConvTo w x) := by
  refine ⟨?_, ?_, ?_⟩
  · intro cb e he
    unfold CB.dedupExpr
    simp only [he, if_true]
    cases hm : exprMapGet cb.exprMap e with
    | some id => simp [hm]
    | none => simp [hm, exprMapGet]
  · intro cb e he
    unfold CB.dedupExpr
    simp [he]
  · intro e
    constructor
    · intro he
      cases e <;> simp_all [Expr.pure]
    · rintro ⟨w, x, rfl⟩
      rfl

/-- C4 witness: instantiating the interning theorem at a concrete pure
expression (a boolean constant) and a concrete impure expression
(`BVConvTo 0 1`) on the empty builder. -/
theorem c4_dedup_idempotent_pure_fresh_impure_witness :
    ((CB.init.dedupExpr (.constE (.bool true))).2.dedupExpr (.constE (.bool true))
      = ((CB.init.dedupExpr (.constE (.bool true))).1,
         (CB.init.dedupExpr (.constE (.bool true))).2))
    ∧ (((CB.init.dedupExpr (.bvConvTo 0 1)).2.dedupExpr (.bvConvTo 0 1)).1
        ≠ (CB.init.dedupExpr (.bvConvTo 0 1)).1)
    ∧ ((Expr.bvConvTo 0 1).pure = false) :=
  ⟨c4_dedup_idempotent_pure_fresh_impure.1 CB.init (.constE (.bool true)) rfl,
   (c4_dedup_idempotent_pure_fresh_impure.2.1 CB.init (.bvConvTo 0 1) rfl).2.1,
   (c4_dedup_idempotent_pure_fresh_impure.2.2 (.bvConvTo 0 1)).2 ⟨0, 1, rfl⟩⟩

/-! ## Reference semantics for the boolean/integer expression fragment

The builder itself never evaluates expressions — the SMT solver does.  To
state semantic claims ("the discriminant can never lie outside the range")
we give the standard SMT semantics of the boolean/integer fragment as a
fuel-indexed evaluator over the expression table: `none` means the
expression is outside the fragment, ill-typed, dangling, or the fuel ran
out. -/

/-- Evaluate expression id `i` in table `exprs` under variable assignment
`env`, with the given recursion fuel. -/
def evalFuel (exprs : List Expr) (env : Nat → Const) : Nat → Nat → Option Const
  | 0, _ => none
  | fuel + 1, i =>
    match exprs[i]? with
    | none => none
    | some e =>
      match e with
      | .constE c => some c
      | .variable v => some (env v)
      | .not x =>
          match evalFuel exprs env fuel x with
          | some (.bool b) => some (.bool (!b))
          | _ => none
      | .and x y =>
          match evalFuel exprs env fuel x, evalFuel exprs env fuel y with
          | some (.bool a), some (.bool b) => some (.bool (a && b))
          | _, _ => none
      | .or x y =>
          match evalFuel exprs env fuel x, evalFuel exprs env fuel y with
          | some (.bool a), some (.bool b) => some (.bool (a || b))
          | _, _ => none
      | .imp x y =>
          match evalFuel exprs env fuel x, evalFuel exprs env fuel y with
          | some (.bool a), some (.bool b) => some (.bool (!a || b))
          | _, _ => none
      | .eq x y =>
          match evalFuel exprs env fuel x, evalFuel exprs env fuel y with
          | some u, some v => some (.bool (decide (u = v)))
          | _, _ => none
      | .lt x y =>
          match evalFuel exprs env fuel x, evalFuel exprs env fuel y with
          | some (.int a), some (.int b) => some (.bool (decide (a < b)))
          | _, _ => none
      | .lte x y =>
          match evalFuel exprs env fuel x, evalFuel exprs env fuel y with
          | some (.int a), some (.int b) => some (.bool (decide (a ≤ b)))
          | _, _ => none
      | .conditional c t e =>
          match evalFuel exprs env fuel c with
          | some (.bool true) => evalFuel exprs env fuel t
          | some (.bool false) => evalFuel exprs env fuel e
          | _ => none
      | _ => none

/-! ## Interning-map well-formedness -/

/-- Well-formedness of the interning map: every map entry points at the
table slot holding exactly that expression.  This holds for every builder
reachable from `CB.init` since `dedup_expr` is the only mutation. -/
def MapWF (cb : CB) : Prop :=
  ∀ p : Expr × Nat, p ∈ cb.exprMap → cb.conditions.exprs[p.2]? = some p.1

theorem exprMapGet_mem {l : List (Expr × Nat)} {e : Expr} {i : Nat}
    (h : exprMapGet l e = some i) : (e, i) ∈ l := by
  induction l with
  | nil => simp [exprMapGet] at h
  | cons hd tl ih =>
      obtain ⟨e', i'⟩ := hd
      simp only [exprMapGet] at h
      by_cases he : e' = e
      · subst he
        simp at h
        subst h
        exact List.mem_cons_self _ _
      · simp [he] at h
        exact List.mem_cons_of_mem _ (ih h)

theorem dedupExpr_get {cb : CB} {e : Expr} (hwf : MapWF cb) :
    (cb.dedupExpr e).2.conditions.exprs[(cb.dedupExpr e).1]? = some e := by
  unfold CB.dedupExpr
  cases hp : e.pure
  · simp only [hp, Bool.false_eq_true, if_false]
    simp [List.getElem?_concat_length]
  · simp only [hp, if_true]
    cases hm : exprMapGet cb.exprMap e
    · simp [List.getElem?_concat_length]
    · next i =>
        have := hwf _ (exprMapGet_mem hm)
        simpa using this

theorem dedupExpr_extends {cb : CB} {e : Expr} {j : Nat} {e' : Expr}
    (h : cb.conditions.exprs[j]? = some e') :
    (cb.dedupExpr e).2.conditions.exprs[j]? = some e' := by
  unfold CB.dedupExpr
  have hj : j < cb.conditions.exprs.length := List.getElem?_eq_some.mp h |>.1
  cases hp : e.pure
  · simpa [List.getElem?_append_left hj] using h
  · cases hm : exprMapGet cb.exprMap e
    · simpa [hm, List.getElem?_append_left hj] using h
    · simpa [hm] using h

theorem dedupExpr_mapWF {cb : CB} {e : Expr} (hwf : MapWF cb) :
    MapWF (cb.dedupExpr e).2 := by
  unfold CB.dedupExpr
  cases hp : e.pure
  · intro p hp'
    simp only [hp, Bool.false_eq_true, if_false] at hp'
    simp only [List.mem_cons] at hp'
    rcases hp' with rfl | hp'
    · simp [List.getElem?_concat_length]
    · have := hwf _ hp'
      have hj : p.2 < cb.conditions.exprs.length := List.getElem?_eq_some.mp this |>.1
      simpa [List.getElem?_append_left hj] using this
  · simp only [hp, if_true]
    cases hm : exprMapGet cb.exprMap e
    · intro p hp'
      simp only [List.mem_cons] at hp'
      rcases hp' with rfl | hp'
      · simp [List.getElem?_concat_length]
      · have := hwf _ hp'
        have hj : p.2 < cb.conditions.exprs.length := List.getElem?_eq_some.mp this |>.1
        simpa [List.getElem?_append_left hj] using this
    · exact hwf

theorem dedupExpr_assumptions {cb : CB} {e : Expr} :
    (cb.dedupExpr e).2.conditions.assumptions = cb.conditions.assumptions := by
  unfold CB.dedupExpr
  cases hp : e.pure <;> cases hm : exprMapGet cb.exprMap e <;> simp [hp, hm]

theorem dedupExpr_assertions {cb : CB} {e : Expr} :
    (cb.dedupExpr e).2.conditions.assertions = cb.conditions.assertions := by
  unfold CB.dedupExpr
  cases hp : e.pure <;> cases hm : exprMapGet cb.exprMap e <;> simp [hp, hm]

/-! ## Evaluator inversion lemmas -/

theorem evalFuel_and_true {exprs : List Expr} {env : Nat → Const} {fuel i x y : Nat}
    (hget : exprs[i]? = some (.and x y))
    (h : evalFuel exprs env fuel i = some (.bool true)) :
    ∃ f, fuel = f + 1
      ∧ evalFuel exprs env f x = some (.bool true)
      ∧ evalFuel exprs env f y = some (.bool true) := by
  cases fuel with
  | zero => simp [evalFuel] at h
  | succ f =>
      refine ⟨f, rfl, ?_, ?_⟩ <;>
        · simp only [evalFuel, hget] at h
          cases hx : evalFuel exprs env f x <;> cases hy : evalFuel exprs env f y <;>
            simp [hx, hy] at h
          · next u v =>
              cases u <;> cases v <;> simp_all

theorem evalFuel_lte_true {exprs : List Expr} {env : Nat → Const} {fuel i x y : Nat}
    (hget : exprs[i]? = some (.lte x y))
    (h : evalFuel exprs env fuel i = some (.bool true)) :
    ∃ f a b, fuel = f + 1
      ∧ evalFuel exprs env f x = some (.int a)
      ∧ evalFuel exprs env f y = some (.int b)
      ∧ a ≤ b := by
  cases fuel with
  | zero => simp [evalFuel] at h
  | succ f =>
      simp only [evalFuel, hget] at h
      cases hx : evalFuel exprs env f x <;> cases hy : evalFuel exprs env f y <;>
        simp [hx, hy] at h
      next u v =>
        cases u <;> cases v <;> simp_all

theorem evalFuel_lt_true {exprs : List Expr} {env : Nat → Const} {fuel i x y : Nat}
    (hget : exprs[i]? = some (.lt x y))
    (h : evalFuel exprs env fuel i = some (.bool true)) :
    ∃ f a b, fuel = f + 1
      ∧ evalFuel exprs env f x = some (.int a)
      ∧ evalFuel exprs env f y = some (.int b)
      ∧ a < b := by
  cases fuel with
  | zero => simp [evalFuel] at h
  | succ f =>
      simp only [evalFuel, hget] at h
      cases hx : evalFuel exprs env f x <;> cases hy : evalFuel exprs env f y <;>
        simp [hx, hy] at h
      next u v =>
        cases u <;> cases v <;> simp_all

theorem evalFuel_const_inv {exprs : List Expr} {env : Nat → Const} {fuel i : Nat}
    {c c' : Const} (hget : exprs[i]? = some (.constE c))
    (h : evalFuel exprs env fuel i = some c') : c' = c := by
  cases fuel with
  | zero => simp [evalFuel] at h
  | succ f =>
      simp only [evalFuel, hget] at h
      simpa using h.symm

/-! ## Symbolic enum construction (`veri.rs::ConditionsBuilder::new_enum`) -/

/-- The check of `SymbolicEnum::validate`: variants must carry distinct
discriminants equal to their position, i.e. `0..num_variants` in order. -/
def validateEnumGo (expect : Nat) :
    List (String × Nat × Nat × Symbolic) → Except String Unit
  | [] => .ok ()
  | (name, _, d, _) :: rest =>
      if d ≠ expect then .error ("variant '" ++ name ++ "' has unexpected discriminant")
      else validateEnumGo (expect + 1) rest

/-- Validation of a symbolic enum (`SymbolicEnum::validate`). -/
def validateEnum (variants : List (String × Nat × Nat × Symbolic)) : Except String Unit :=
  validateEnumGo 0 variants

/-- Field values of a variant (`SymbolicVariant::field_values`, via
`fields`/`as_struct`): errors unless the variant value is a struct. -/
def fieldValues : Symbolic → Except String (List Symbolic)
  | .struct fields => .ok (fields.map (fun f => f.2))
  | _ => .error "variant value is not a struct"

/-- Recording a call (`ConditionsBuilder::record_term_instantiation`).  The
source also resolves overload signatures from the spec environment for
reporting; that lookup lives in the absent `spec.rs` and affects only the
report, so the call record keeps term, arguments, and return value. -/
def CB.recordTermInstantiation (cb : CB) (term : Nat) (args : List Symbolic)
    (ret : Symbolic) : CB :=
  { cb with conditions :=
      { cb.conditions with calls := cb.conditions.calls ++ [⟨term, args, ret⟩] } }

/-- The per-variant call-recording loop at the end of `new_enum`.
`variantTerm` models `prog.get_variant_term`. -/
def recordVariantCalls (variantTerm : Nat → Nat → Nat) (ty : Nat) (ret : Symbolic) :
    CB → List (String × Nat × Nat × Symbolic) → Except String CB
  | cb, [] => .ok cb
  | cb, (_, id, _, value) :: rest =>
      match fieldValues value with
      | .error e => .error e
      | .ok args =>
          recordVariantCalls variantTerm ty ret
            (cb.recordTermInstantiation (variantTerm ty id) args ret) rest

/-- Symbolic enum construction (`veri.rs::ConditionsBuilder::new_enum`):
validate the variants, assume the discriminant range invariant
`0 ≤ discriminant ∧ discriminant < num_variants`, and record one term
instantiation per variant. -/
def CB.newEnum (cb : CB) (variantTerm : Nat → Nat → Nat) (ty : Nat)
    (discriminant : Nat) (variants : List (String × Nat × Nat × Symbolic)) :
    Except String (Symbolic × CB) :=
  match validateEnum variants with
  | .error e => .error e
  | .ok _ =>
      let (zero, cb) := cb.constant (.int 0)
      let (numVariants, cb) := cb.constant (.int variants.length)
      let (discPositive, cb) := cb.dedupExpr (.lte zero discriminant)
      let (discLtNum, cb) := cb.dedupExpr (.lt discriminant numVariants)
      let (discInRange, cb) := cb.dedupExpr (.and discPositive discLtNum)
      let cb := cb.pushAssumption discInRange
      let ret := Symbolic.enumV ty discriminant variants
      match recordVariantCalls variantTerm ty ret cb variants with
      | .error e => .error e
      | .ok cb => .ok (ret, cb)

theorem validateEnumGo_ok {variants : List (String × Nat × Nat × Symbolic)} :
    ∀ {expect : Nat}, validateEnumGo expect variants = .ok () →
    ∀ k (hk : k < variants.length), (variants.get ⟨k, hk⟩).2.2.1 = expect + k := by
  induction variants with
  | nil => intro expect _ k hk; simp at hk
  | cons hd tl ih =>
      intro expect h k hk
      obtain ⟨name, id, d, v⟩ := hd
      simp only [validateEnumGo] at h
      by_cases hd' : d = expect
      · rw [hd'] at h
        rw [if_neg (fun hc => hc rfl)] at h
        cases k with
        | zero => simp [hd']
        | succ k' =>
            have h2 := ih h k' (by simpa using Nat.lt_of_succ_lt_succ hk)
            have hg : ((name, id, d, v) :: tl).get ⟨k' + 1, hk⟩
                = tl.get ⟨k', by simpa using Nat.lt_of_succ_lt_succ hk⟩ := rfl
            rw [hg, h2]
            omega
      · simp [hd'] at h

theorem recordVariantCalls_conditions {variantTerm : Nat → Nat → Nat} {ty : Nat}
    {ret : Symbolic} {variants : List (String × Nat × Nat × Symbolic)} :
    ∀ (cb cb' : CB), recordVariantCalls variantTerm ty ret cb variants = .ok cb' →
    cb'.conditions.exprs = cb.conditions.exprs
    ∧ cb'.conditions.assumptions = cb.conditions.assumptions := by
  induction variants with
  | nil => intro cb cb' h; simp [recordVariantCalls] at h; simp [h]
  | cons hd tl ih =>
      intro cb cb' h
      obtain ⟨name, id, d, v⟩ := hd
      simp only [recordVariantCalls] at h
      cases hv : fieldValues v with
      | error e => simp [hv] at h
      | ok args =>
          simp only [hv] at h
          have h3 := ih (cb.recordTermInstantiation (variantTerm ty id) args ret) cb' h
          exact h3

/-! ## Theorem for claim C3 -/

/-- C3: every symbolic enum constructed by `new_enum` with `N` variants adds
one assumption to the conditions asserting `0 ≤ discriminant ∧ discriminant
< N`, and its variants carry the distinct discriminants `0..N-1` in order
(enforced by `SymbolicEnum::validate`); consequently under that assumption —
in any model of the boolean/integer semantics making it true — the
discriminant evaluates to an integer inside `[0, N)`. -/
theorem c3_new_enum_discriminant_invariant
    (cb : CB) (variantTerm : Nat → Nat → Nat) (ty disc : Nat)
    (variants : List (String × Nat × Nat × Symbolic)) (sym : Symbolic) (cb' : CB)
    (hwf : MapWF cb)
    (h : cb.newEnum variantTerm ty disc variants = .ok (sym, cb')) :
    (∀ k (hk : k < variants.length), (variants.get ⟨k, hk⟩).2.2.1 = k)
    ∧ ∃ a, cb'.conditions.assumptions = cb.conditions.assumptions ++ [a]
      ∧ ∀ (env : Nat → Const) (fuel : Nat),
          evalFuel cb'.conditions.exprs env fuel a = some (.bool true) →
          ∃ f d, fuel = f + 2
            ∧ evalFuel cb'.conditions.exprs env f disc = some (.int d)
            ∧ 0 ≤ d ∧ d < (variants.length : Int) := by
  unfold CB.newEnum at h
  cases hv : validateEnum variants with
  | error e => simp [hv] at h
  | ok u =>
      obtain ⟨⟩ := u
      simp only [hv] at h
      -- Name the interning steps.
      set s1 := cb.constant (.int 0) with hs1
      set s2 := s1.2.constant (.int variants.length) with hs2
      set s3 := s2.2.dedupExpr (.lte s1.1 disc) with hs3
      set s4 := s3.2.dedupExpr (.lt disc s2.1) with hs4
      set s5 := s4.2.dedupExpr (.and s3.1 s4.1) with hs5
      cases hr : recordVariantCalls variantTerm ty
          (Symbolic.enumV ty disc variants) (s5.2.pushAssumption s5.1) variants with
      | error e => rw [hr] at h; simp at h
      | ok cbf =>
          rw [hr] at h
          simp only [Except.ok.injEq, Prod.mk.injEq] at h
          obtain ⟨hsym, hcb⟩ := h
          subst hcb
          obtain ⟨hexprs, hassum⟩ := recordVariantCalls_conditions _ _ hr
          constructor
          · intro k hk
            simpa using validateEnumGo_ok hv k hk
          · refine ⟨s5.1, ?_, ?_⟩
            · rw [hassum]
              simp [CB.pushAssumption, hs5, dedupExpr_assumptions, hs4, hs3, hs2, hs1,
                CB.constant]
            · -- Table entries for the assumption chain.
              have hwf1 : MapWF s1.2 := dedupExpr_mapWF hwf
              have hwf2 : MapWF s2.2 := dedupExpr_mapWF hwf1
              have hwf3 : MapWF s3.2 := dedupExpr_mapWF hwf2
              have hwf4 : MapWF s4.2 := dedupExpr_mapWF hwf3
              have hz : s5.2.conditions.exprs[s1.1]? = some (.constE (.int 0)) :=
                dedupExpr_extends (dedupExpr_extends (dedupExpr_extends
                  (dedupExpr_extends (dedupExpr_get hwf))))
              have hn : s5.2.conditions.exprs[s2.1]? = some (.constE (.int variants.length)) :=
                dedupExpr_extends (dedupExpr_extends (dedupExpr_extends
                  (dedupExpr_get hwf1)))
              have hpos : s5.2.conditions.exprs[s3.1]? = some (.lte s1.1 disc) :=
                dedupExpr_extends (dedupExpr_extends (dedupExpr_get hwf2))
              have hltn : s5.2.conditions.exprs[s4.1]? = some (.lt disc s2.1) :=
                dedupExpr_extends (dedupExpr_get hwf3)
              have hand : s5.2.conditions.exprs[s5.1]? = some (.and s3.1 s4.1) :=
                dedupExpr_get hwf4
              have hexprs' : cbf.conditions.exprs = s5.2.conditions.exprs := by
                simpa [CB.pushAssumption] using hexprs
              rw [hexprs']
              intro env fuel hev
              obtain ⟨f1, rfl, hp, hl⟩ := evalFuel_and_true hand hev
              obtain ⟨f2, a, b, rfl, ha, hb, hab⟩ := evalFuel_lte_true hpos hp
              obtain ⟨f2', a', b', hf2', ha', hb', hab'⟩ := evalFuel_lt_true hltn hl
              have hf22 : f2' = f2 := by omega
              rw [hf22] at ha' hb'
              have h0 : (Const.int a) = Const.int 0 := evalFuel_const_inv hz ha
              have hN : (Const.int b') = Const.int (variants.length : Int) :=
                evalFuel_const_inv hn hb'
              have hba' : (Const.int b) = Const.int a' := by
                have := hb.symm.trans ha'
                simpa using this
              simp only [Const.int.injEq] at h0 hN hba'
              refine ⟨f2, a', rfl, ha', ?_, ?_⟩
              · omega
              · omega

/-- Discriminates `Except` results (for concrete executions in witnesses). -/
def exceptIsOk {α : Type} : Except String α → Bool
  | .ok _ => true
  | .error _ => false

/-- C3 witness: constructing a two-variant symbolic enum on the empty
builder succeeds and adds exactly one assumption (the discriminant range
invariant). -/
theorem c3_new_enum_discriminant_invariant_witness :
    ∃ sym cb',
      CB.init.newEnum (fun _ _ => 0) 3 0
          [("A", 0, 0, .struct []), ("B", 1, 1, .struct [])] = .ok (sym, cb')
      ∧ ∃ a, cb'.conditions.assumptions = [a] := by
  cases hr : CB.init.newEnum (fun _ _ => 0) 3 0
      [("A", 0, 0, .struct []), ("B", 1, 1, .struct [])] with
  | error e =>
      have ht : exceptIsOk (CB.init.newEnum (fun _ _ => 0) 3 0
          [("A", 0, 0, .struct []), ("B", 1, 1, .struct [])]) = true := rfl
      rw [hr] at ht
      simp [exceptIsOk] at ht
  | ok p =>
      obtain ⟨sym, cb2⟩ := p
      have hwf : MapWF CB.init := by intro q hq; simp [CB.init] at hq
      have h := c3_new_enum_discriminant_invariant CB.init (fun _ _ => 0) 3 0
          _ sym cb2 hwf hr
      obtain ⟨a, ha, -⟩ := h.2
      exact ⟨sym, cb2, rfl, a, by simpa [CB.init] using ha⟩

/-! ## Spec expressions and their symbolic evaluation (`veri.rs::spec_expr`)

The spec AST lives in the crate's `spec.rs`; the fragment below carries the
constructors exercised by the claims exactly as `spec_expr_kind` consumes
them (`Var`, `Const`, `Not`, variadic `And`/`Or`, `Imp`, `Eq`, `Lt`, `Lte`,
`Gt`, `Gte`, `Add`, `Sub`).  Source positions on spec expressions only feed
diagnostics and are dropped. -/

/-- Spec expression fragment (`spec.rs::ExprKind` as consumed by
`ConditionsBuilder::spec_expr_kind`). -/
inductive SpecExpr where
  | var (name : String)
  | constE (c : Const)
  | not (x : SpecExpr)
  | and (xs : List SpecExpr)
  | or (xs : List SpecExpr)
  | imp (x y : SpecExpr)
  | eq (x y : SpecExpr)
  | lt (x y : SpecExpr)
  | lte (x y : SpecExpr)
  | gt (x y : SpecExpr)
  | gte (x y : SpecExpr)
  | add (x y : SpecExpr)
  | sub (x y : SpecExpr)

/-- Scalar projection with the builder's error (`self.as_scalar(v)?`). -/
def asScalarE (v : Symbolic) : Except String Nat :=
  match v.asScalar with
  | some x => .ok x
  | none => .error "expected scalar value"

/-- The `discriminator` helper (`ConditionsBuilder::discriminator`): intern
the variant's declared discriminant as an integer constant and equate the
enum's discriminant expression with it. -/
def CB.discriminator (cb : CB) (enumDisc : Nat) (variantDisc : Nat) : Nat × CB :=
  let (c, cb) := cb.constant (.int variantDisc)
  cb.exprsEqual enumDisc c

mutual

/-- Structural equality constraints between two symbolic values
(`veri.rs::ConditionsBuilder::values_equal`).  Shape mismatches error
("`equality on different symbolic types`"); the length/name `assert!`s and
the `todo!` fallback (e.g. option-against-option) become distinguishable
`panic:` errors. -/
def valuesEqual (cb : CB) : Symbolic → Symbolic → Except String (Nat × CB)
  | .scalar u, .scalar v => .ok (cb.exprsEqual u v)
  | .struct us, .struct vs =>
      if us.length ≠ vs.length then .error "panic: field length mismatch"
      else
        match structFieldsEqual cb us vs with
        | .error e => .error e
        | .ok (ids, cb) => .ok (cb.all ids)
  | .enumV _ ud uvars, .enumV _ vd vvars =>
      let (deq, cb) := cb.exprsEqual ud vd
      if uvars.length ≠ vvars.length then .error "panic: variant count mismatch"
      else
        match enumVariantsEqual cb ud uvars vvars with
        | .error e => .error e
        | .ok (ids, cb) => .ok (cb.all (deq :: ids))
  | .tuple us, .tuple vs =>
      if us.length ≠ vs.length then .error "panic: tuple length mismatch"
      else
        match tupleElemsEqual cb us vs with
        | .error e => .error e
        | .ok (ids, cb) => .ok (cb.all ids)
  | .option _ _, .option _ _ => .error "panic: todo values equal"
  | _, _ => .error "equality on different symbolic types"
termination_by structural a b => a

/-- Field-wise equality for struct values (the `zip(us, vs)` loop). -/
def structFieldsEqual (cb : CB) :
    List (String × Symbolic) → List (String × Symbolic) →
    Except String (List Nat × CB)
  | [], _ => .ok ([], cb)
  | _, [] => .ok ([], cb)
  | (un, uv) :: us, (vn, vv) :: vs =>
      if un ≠ vn then .error "panic: field name mismatch"
      else
        match valuesEqual cb uv vv with
        | .error e => .error e
        | .ok (i, cb) =>
            match structFieldsEqual cb us vs with
            | .error e => .error e
            | .ok (ids, cb) => .ok (i :: ids, cb)
termination_by structural us vs => us

/-- Variant-wise guarded equality for enum values (the `zip` over variants):
if the discriminant selects the variant, the variant payloads are equal. -/
def enumVariantsEqual (cb : CB) (ud : Nat) :
    List (String × Nat × Nat × Symbolic) → List (String × Nat × Nat × Symbolic) →
    Except String (List Nat × CB)
  | [], _ => .ok ([], cb)
  | _, [] => .ok ([], cb)
  | (un, uid, udisc, uval) :: us, (vn, vid, vdisc, vval) :: vs =>
      if un ≠ vn then .error "panic: variant name mismatch"
      else if uid ≠ vid then .error "panic: variant id mismatch"
      else if udisc ≠ vdisc then .error "panic: variant discriminant mismatch"
      else
        let (sel, cb) := cb.discriminator ud udisc
        match valuesEqual cb uval vval with
        | .error e => .error e
        | .ok (veq, cb) =>
            let (guarded, cb) := cb.dedupExpr (.imp sel veq)
            match enumVariantsEqual cb ud us vs with
            | .error e => .error e
            | .ok (ids, cb) => .ok (guarded :: ids, cb)
termination_by structural us vs => us

/-- Element-wise equality for tuple values. -/
def tupleElemsEqual (cb : CB) :
    List Symbolic → List Symbolic → Except String (List Nat × CB)
  | [], _ => .ok ([], cb)
  | _, [] => .ok ([], cb)
  | u :: us, v :: vs =>
      match valuesEqual cb u v with
      | .error e => .error e
      | .ok (i, cb) =>
          match tupleElemsEqual cb us vs with
          | .error e => .error e
          | .ok (ids, cb) => .ok (i :: ids, cb)
termination_by structural us vs => us

end

/-- The `rev().reduce(..)` of the `variadic_expr!` macro: right-associated
fold building `mk e acc`, failing on an empty clause list. -/
def variadicFold (cb : CB) (mk : Nat → Nat → Expr) (ids : List Nat) :
    Except String (Nat × CB) :=
  match ids.reverse with
  | [] => .error "empty variadic expression"
  | acc :: rest =>
      .ok (rest.foldl (fun (p : Nat × CB) e => p.2.dedupExpr (mk e p.1)) (acc, cb))

mutual

/-- Symbolic evaluation of a spec expression
(`ConditionsBuilder::spec_expr_kind`) in scope `vars`.  The bodies of the
source's `unary_expr!`/`binary_expr!`/`variadic_expr!` macros appear inline,
as they do after Rust macro expansion; operand evaluation order matches.
Note `Gt`/`Gte` evaluate their right operand first and build a flipped
`Lt`/`Lte`, exactly as the source's `binary_expr!(Expr::Lt, y, x)`. -/
def specExpr (cb : CB) (vars : Variables) : SpecExpr → Except String (Symbolic × CB)
  | .var v =>
      match vars.expect v with
      | .error e => .error e
      | .ok s => .ok (s, cb)
  | .constE c =>
      let (x, cb) := cb.constant c
      .ok (.scalar x, cb)
  | .not x =>
      match specExpr cb vars x with
      | .error e => .error e
      | .ok (xv, cb) =>
          match asScalarE xv with
          | .error e => .error e
          | .ok a =>
              let (i, cb) := cb.dedupExpr (.not a)
              .ok (.scalar i, cb)
  | .and xs =>
      match specExprList cb vars xs with
      | .error e => .error e
      | .ok (ids, cb) =>
          match variadicFold cb Expr.and ids with
          | .error e => .error e
          | .ok (i, cb) => .ok (.scalar i, cb)
  | .or xs =>
      match specExprList cb vars xs with
      | .error e => .error e
      | .ok (ids, cb) =>
          match variadicFold cb Expr.or ids with
          | .error e => .error e
          | .ok (i, cb) => .ok (.scalar i, cb)
  | .imp x y =>
      match specExpr cb vars x with
      | .error e => .error e
      | .ok (xv, cb) =>
          match specExpr cb vars y with
          | .error e => .error e
          | .ok (yv, cb) =>
              match asScalarE xv with
              | .error e => .error e
              | .ok a =>
                  match asScalarE yv with
                  | .error e => .error e
                  | .ok b =>
                      let (i, cb) := cb.dedupExpr (.imp a b)
                      .ok (.scalar i, cb)
  | .eq x y =>
      match specExpr cb vars x with
      | .error e => .error e
      | .ok (xv, cb) =>
          match specExpr cb vars y with
          | .error e => .error e
          | .ok (yv, cb) =>
              match valuesEqual cb xv yv with
              | .error e => .error e
              | .ok (i, cb) => .ok (.scalar i, cb)
  | .lt x y =>
      match specExpr cb vars x with
      | .error e => .error e
      | .ok (xv, cb) =>
          match specExpr cb vars y with
          | .error e => .error e
          | .ok (yv, cb) =>
              match asScalarE xv with
              | .error e => .error e
              | .ok a =>
                  match asScalarE yv with
                  | .error e => .error e
                  | .ok b =>
                      let (i, cb) := cb.dedupExpr (.lt a b)
                      .ok (.scalar i, cb)
  | .lte x y =>
      match specExpr cb vars x with
      | .error e => .error e
      | .ok (xv, cb) =>
          match specExpr cb vars y with
          | .error e => .error e
          | .ok (yv, cb) =>
              match asScalarE xv with
              | .error e => .error e
              | .ok a =>
                  match asScalarE yv with
                  | .error e => .error e
                  | .ok b =>
                      let (i, cb) := cb.dedupExpr (.lte a b)
                      .ok (.scalar i, cb)
  | .gt x y =>
      match specExpr cb vars y with
      | .error e => .error e
      | .ok (yv, cb) =>
          match specExpr cb vars x with
          | .error e => .error e
          | .ok (xv, cb) =>
              match asScalarE yv with
              | .error e => .error e
              | .ok a =>
                  match asScalarE xv with
                  | .error e => .error e
                  | .ok b =>
                      let (i, cb) := cb.dedupExpr (.lt a b)
                      .ok (.scalar i, cb)
  | .gte x y =>
      match specExpr cb vars y with
      | .error e => .error e
      | .ok (yv, cb) =>
          match specExpr cb vars x with
          | .error e => .error e
          | .ok (xv, cb) =>
              match asScalarE yv with
              | .error e => .error e
              | .ok a =>
                  match asScalarE xv with
                  | .error e => .error e
                  | .ok b =>
                      let (i, cb) := cb.dedupExpr (.lte a b)
                      .ok (.scalar i, cb)
  | .add x y =>
      match specExpr cb vars x with
      | .error e => .error e
      | .ok (xv, cb) =>
          match specExpr cb vars y with
          | .error e => .error e
          | .ok (yv, cb) =>
              match asScalarE xv with
              | .error e => .error e
              | .ok a =>
                  match asScalarE yv with
                  | .error e => .error e
                  | .ok b =>
                      let (i, cb) := cb.dedupExpr (.add a b)
                      .ok (.scalar i, cb)
  | .sub x y =>
      match specExpr cb vars x with
      | .error e => .error e
      | .ok (xv, cb) =>
          match specExpr cb vars y with
          | .error e => .error e
          | .ok (yv, cb) =>
              match asScalarE xv with
              | .error e => .error e
              | .ok a =>
                  match asScalarE yv with
                  | .error e => .error e
                  | .ok b =>
                      let (i, cb) := cb.dedupExpr (.sub a b)
                      .ok (.scalar i, cb)
termination_by structural e => e

/-- Evaluation of a clause list to scalar expression ids: this is both the
element loop of `variadic_expr!` and the `requires`/`matches`/`provides`
loops of `ConditionsBuilder::call` (each clause is `spec_expr`-evaluated and
`as_scalar`-projected in order). -/
def specExprList (cb : CB) (vars : Variables) :
    List SpecExpr → Except String (List Nat × CB)
  | [] => .ok ([], cb)
  | x :: rest =>
      match specExpr cb vars x with
      | .error e => .error e
      | .ok (v, cb) =>
          match asScalarE v with
          | .error e => .error e
          | .ok i =>
              match specExprList cb vars rest with
              | .error e => .error e
              | .ok (ids, cb) => .ok (i :: ids, cb)
termination_by structural xs => xs

end

/-! ## Term calls (`veri.rs::ConditionsBuilder::call`) -/

/-- Term kinds at a call (`veri.rs::TermKind`). -/
inductive TermKind where
  | constructor
  | extractor

/-- Whose side of the contract is being built (`veri.rs::Invocation`). -/
inductive Invocation where
  | caller
  | callee

/-- Totality of the called function (`veri.rs::Domain`): a partial
(option-returning) call carries the is-some flag of the option
(`Domain::Partial(ExprId)`). -/
inductive Domain where
  | total
  | partialDom (someId : Nat)

/-- A `modifies` clause of a term spec (`spec.rs::Modifies`): the state
variable written, and the optional name binding the modification condition. -/
structure Modifies where
  state : String
  cond : Option String

/-- A term specification (`spec.rs::Spec`) as consumed by `call`: syntactic
argument/return names and the `requires`/`matches`/`provides`/`modifies`
clauses (the `matches` field is named `matchesCl` because `matches` is a
reserved token here). -/
structure TermSpec where
  args : List String
  ret : String
  requires : List SpecExpr
  matchesCl : List SpecExpr
  provides : List SpecExpr
  modifies : List Modifies

/-- Appending to a state-modification entry
(`self.state_modification_conds.entry(name).or_default().push(cond)`). -/
def pushCond : List (String × List Nat) → String → Nat → List (String × List Nat)
  | [], name, c => [(name, [c])]
  | (n, cs) :: rest, name, c =>
      if n = name then (n, cs ++ [c]) :: rest
      else (n, cs) :: pushCond rest name c

/-- Recording a state-modification condition on the builder. -/
def CB.pushStateModCond (cb : CB) (name : String) (c : Nat) : CB :=
  { cb with stateModificationConds := pushCond cb.stateModificationConds name c }

/-- The `modifies` loop of `call`: allocate a fresh boolean for a named
condition (bringing it into spec scope) or use the constant `true`, and
record it for the state-default guard. -/
def modifiesLoop (cb : CB) (vars : Variables) :
    List Modifies → Except String (Variables × CB)
  | [] => .ok (vars, cb)
  | m :: rest =>
      match m.cond with
      | some condName =>
          let (cond, cb) := cb.allocVariable .bool (m.state ++ "_modification_cond")
          match vars.set condName (.scalar cond) with
          | .error e => .error e
          | .ok vars =>
              modifiesLoop (cb.pushStateModCond m.state cond) vars rest
      | none =>
          let (cond, cb) := cb.boolean true
          modifiesLoop (cb.pushStateModCond m.state cond) vars rest

/-- Binding the input (or output) name/value pairs into the spec scope. -/
def setAllVars (vars : Variables) :
    List (String × Symbolic) → Except String Variables
  | [] => .ok vars
  | (n, v) :: rest =>
      match vars.set n v with
      | .error e => .error e
      | .ok vars => setAllVars vars rest

/-- The `(inputs, outputs)` selection of `call`: the syntactic arguments and
return value swap roles for extractors, since an extractor's "arguments" are
its return values. -/
def callInputsOutputs (termSpec : TermSpec) (kind : TermKind)
    (args : List Symbolic) (ret : Symbolic) :
    List (String × Symbolic) × List (String × Symbolic) :=
  let arguments := termSpec.args.zip args
  let result := (termSpec.ret, ret)
  match kind with
  | .constructor => (arguments, [result])
  | .extractor => ([result], arguments)

/-- A term call (`veri.rs::ConditionsBuilder::call`).  The spec lookup
(`self.prog.specenv.term_spec.get(&term)`) happens at the caller; here the
found spec is the argument.  Inputs and outputs swap for extractors; the
`requires`/`matches` clauses see only inputs, `provides` sees outputs too;
a partial call asserts `is_some = all(matches)` and guards its provides by
`all(matches)`; finally `requires`/`provides` are routed to
assertions/assumptions according to the invocation, and the call site is
recorded. -/
def callFn (cb : CB) (term : Nat) (termSpec : TermSpec) (kind : TermKind)
    (args : List Symbolic) (ret : Symbolic) (inv : Invocation) (dom : Domain) :
    Except String CB :=
  if termSpec.args.length ≠ args.length then
    .error "incorrect number of arguments for term"
  else
    let (inputs, outputs) := callInputsOutputs termSpec kind args ret
    match modifiesLoop cb cb.conditions.state termSpec.modifies with
    | .error e => .error e
    | .ok (vars, cb) =>
    match setAllVars vars inputs with
    | .error e => .error e
    | .ok vars =>
    match specExprList cb vars termSpec.requires with
    | .error e => .error e
    | .ok (requiresIds, cb) =>
    match specExprList cb vars termSpec.matchesCl with
    | .error e => .error e
    | .ok (matchesIds, cb) =>
    match setAllVars vars outputs with
    | .error e => .error e
    | .ok vars' =>
    match specExprList cb vars' termSpec.provides with
    | .error e => .error e
    | .ok (providesIds, cb) =>
    let pr : Except String (List Nat × CB) :=
      match dom with
      | .partialDom p =>
          let (allMatches, cb) := cb.all matchesIds
          let (eqId, cb) := cb.exprsEqual p allMatches
          let cb := cb.pushAssumption eqId
          let (allProvides, cb) := cb.all providesIds
          let (provide, cb) := cb.dedupExpr (.imp allMatches allProvides)
          .ok ([provide], cb)
      | .total =>
          if matchesIds ≠ [] then .error "spec matches on non-partial function"
          else .ok (providesIds, cb)
    match pr with
    | .error e => .error e
    | .ok (finalProvides, cb) =>
    let cb :=
      match inv with
      | .caller => (cb.extendAssertions requiresIds).extendAssumptions finalProvides
      | .callee => (cb.extendAssumptions requiresIds).extendAssertions finalProvides
    .ok (cb.recordTermInstantiation term args ret)

/-- A global state declaration (`spec.rs::State`) as consumed by
`state_default`: the variable's name and its default spec expression (its
model type is consumed only by `init_state`'s allocation, not here). -/
structure StateDecl where
  name : String
  default : SpecExpr

/-- State defaults (`veri.rs::ConditionsBuilder::state_default`): evaluate
the default spec in a scope holding only the state variable; if some call
recorded modification conditions for it, guard the default by "none of the
modification conditions holds"; assume the result. -/
def stateDefault (cb : CB) (st : StateDecl) : Except String CB :=
  match Variables.expect cb.conditions.state st.name with
  | .error e => .error e
  | .ok value =>
      match Variables.set ([] : Variables) st.name value with
      | .error e => .error e
      | .ok vars =>
          match specExpr cb vars st.default with
          | .error e => .error e
          | .ok (defaultV, cb) =>
              match condsGet cb.stateModificationConds st.name with
              | some conds =>
                  let (modified, cb) := cb.any conds
                  let (notMod, cb) := cb.dedupExpr (.not modified)
                  match asScalarE defaultV with
                  | .error e => .error e
                  | .ok d =>
                      let (g, cb) := cb.dedupExpr (.imp notMod d)
                      .ok (cb.pushAssumption g)
              | none =>
                  match asScalarE defaultV with
                  | .error e => .error e
                  | .ok d => .ok (cb.pushAssumption d)

/-! ## Builder-state lemmas for the conjunction fold and the call pipeline -/

theorem allFold_assumptions :
    ∀ (rest : List Nat) (acc : Nat × CB),
    ((rest.foldl (fun (acc : Nat × CB) x => acc.2.dedupExpr (.and acc.1 x)) acc).2).conditions.assumptions
      = acc.2.conditions.assumptions := by
  intro rest
  induction rest with
  | nil => intro acc; rfl
  | cons x xs ih =>
      intro acc
      simp only [List.foldl_cons]
      rw [ih]
      exact dedupExpr_assumptions

theorem allFold_assertions :
    ∀ (rest : List Nat) (acc : Nat × CB),
    ((rest.foldl (fun (acc : Nat × CB) x => acc.2.dedupExpr (.and acc.1 x)) acc).2).conditions.assertions
      = acc.2.conditions.assertions := by
  intro rest
  induction rest with
  | nil => intro acc; rfl
  | cons x xs ih =>
      intro acc
      simp only [List.foldl_cons]
      rw [ih]
      exact dedupExpr_assertions

theorem allFold_mapWF :
    ∀ (rest : List Nat) (acc : Nat × CB), MapWF acc.2 →
    MapWF ((rest.foldl (fun (acc : Nat × CB) x => acc.2.dedupExpr (.and acc.1 x)) acc).2) := by
  intro rest
  induction rest with
  | nil => intro acc h; exact h
  | cons x xs ih =>
      intro acc h
      simp only [List.foldl_cons]
      exact ih _ (dedupExpr_mapWF h)

theorem allFold_extends :
    ∀ (rest : List Nat) (acc : Nat × CB) {j : Nat} {e' : Expr},
    acc.2.conditions.exprs[j]? = some e' →
    ((rest.foldl (fun (acc : Nat × CB) x => acc.2.dedupExpr (.and acc.1 x)) acc).2).conditions.exprs[j]? = some e' := by
  intro rest
  induction rest with
  | nil => intro acc j e' h; exact h
  | cons x xs ih =>
      intro acc j e' h
      simp only [List.foldl_cons]
      exact ih _ (dedupExpr_extends h)

theorem all_assumptions {cb : CB} {ids : List Nat} :
    (cb.all ids).2.conditions.assumptions = cb.conditions.assumptions := by
  cases ids with
  | nil => exact dedupExpr_assumptions
  | cons e rest => exact allFold_assumptions rest (e, cb)

theorem all_assertions {cb : CB} {ids : List Nat} :
    (cb.all ids).2.conditions.assertions = cb.conditions.assertions := by
  cases ids with
  | nil => exact dedupExpr_assertions
  | cons e rest => exact allFold_assertions rest (e, cb)

theorem all_mapWF {cb : CB} {ids : List Nat} (h : MapWF cb) :
    MapWF (cb.all ids).2 := by
  cases ids with
  | nil => exact dedupExpr_mapWF h
  | cons e rest => exact allFold_mapWF rest (e, cb) h

theorem all_extends {cb : CB} {ids : List Nat} {j : Nat} {e' : Expr}
    (h : cb.conditions.exprs[j]? = some e') :
    (cb.all ids).2.conditions.exprs[j]? = some e' := by
  cases ids with
  | nil => exact dedupExpr_extends h
  | cons e rest => exact allFold_extends rest (e, cb) h

theorem pushAssumption_exprs {cb : CB} {x : Nat} :
    (cb.pushAssumption x).conditions.exprs = cb.conditions.exprs := rfl

theorem pushAssumption_mapWF {cb : CB} {x : Nat} (h : MapWF cb) :
    MapWF (cb.pushAssumption x) := h

theorem specExprList_length :
    ∀ (es : List SpecExpr) (cb : CB) (vars : Variables) (ids : List Nat) (cb' : CB),
      specExprList cb vars es = .ok (ids, cb') → ids.length = es.length := by
  intro es
  induction es with
  | nil =>
      intro cb vars ids cb' h
      simp only [specExprList] at h
      obtain ⟨h1, -⟩ := by simpa using h
      simp [← h1]
  | cons x rest ih =>
      intro cb vars ids cb' h
      simp only [specExprList] at h
      cases h1 : specExpr cb vars x with
      | error e => simp [h1] at h
      | ok q =>
          obtain ⟨v, cb1⟩ := q
          simp only [h1] at h
          cases h2 : asScalarE v with
          | error e => simp [h2] at h
          | ok i =>
              simp only [h2] at h
              cases h3 : specExprList cb1 vars rest with
              | error e => simp [h3] at h
              | ok r =>
                  obtain ⟨ids', cb2⟩ := r
                  simp only [h3] at h
                  obtain ⟨hids, -⟩ := by simpa using h
                  rw [← hids]
                  simp [ih cb1 vars ids' cb2 h3]

/-- Routing shape of a total-domain call: pinned on the clause-evaluation
pipeline (whose equations are hypotheses), the built conditions extend the
post-evaluation state by exactly the requires ids on the assertion side and
the provides ids on the assumption side for a caller invocation, and the
swapped sides for a callee invocation. -/
theorem callTotalRouting
    (cb : CB) (term : Nat) (spec : TermSpec) (kind : TermKind)
    (args : List Symbolic) (ret : Symbolic)
    (vars1 vars2 vars3 : Variables) (cb1 cb2 cb3 cb4 : CB)
    (rs ps : List Nat)
    (hlen : spec.args.length = args.length)
    (hmod : modifiesLoop cb cb.conditions.state spec.modifies = .ok (vars1, cb1))
    (hin : setAllVars vars1 (callInputsOutputs spec kind args ret).1 = .ok vars2)
    (hreq : specExprList cb1 vars2 spec.requires = .ok (rs, cb2))
    (hmat : specExprList cb2 vars2 spec.matchesCl = .ok ([], cb3))
    (hout : setAllVars vars2 (callInputsOutputs spec kind args ret).2 = .ok vars3)
    (hprov : specExprList cb3 vars3 spec.provides = .ok (ps, cb4)) :
    callFn cb term spec kind args ret .caller .total
      = .ok (((cb4.extendAssertions rs).extendAssumptions ps).recordTermInstantiation term args ret)
    ∧ callFn cb term spec kind args ret .callee .total
      = .ok (((cb4.extendAssumptions rs).extendAssertions ps).recordTermInstantiation term args ret) := by
  have hne : ¬(spec.args.length ≠ args.length) := by simp [hlen]
  rcases hio : callInputsOutputs spec kind args ret with ⟨inputs, outputs⟩
  rw [hio] at hin hout
  constructor <;>
    · unfold callFn
      rw [if_neg hne, hio]
      simp only [hmod, hin, hreq, hmat, hout, hprov]
      simp

/-- Shape of a partial-domain call: pinned on the clause-evaluation
pipeline, the builder then interns the conjunction (`CB.all`) of the matches
ids, assumes it equal to the option's is-some flag, replaces the provides by
the single implication guarded by that conjunction, and routes.  Under a
well-formed interning map, the assumed expression really is
`Eq(is_some, all(matches))` and the replaced provide really is
`Imp(all(matches), all(provides))` in the final table. -/
theorem callPartialShape
    (cb : CB) (term : Nat) (spec : TermSpec) (kind : TermKind)
    (args : List Symbolic) (ret : Symbolic) (p : Nat)
    (vars1 vars2 vars3 : Variables) (cb1 cb2 cb3 cb4 : CB)
    (rs ms ps : List Nat)
    (hlen : spec.args.length = args.length)
    (hmod : modifiesLoop cb cb.conditions.state spec.modifies = .ok (vars1, cb1))
    (hin : setAllVars vars1 (callInputsOutputs spec kind args ret).1 = .ok vars2)
    (hreq : specExprList cb1 vars2 spec.requires = .ok (rs, cb2))
    (hmat : specExprList cb2 vars2 spec.matchesCl = .ok (ms, cb3))
    (hout : setAllVars vars2 (callInputsOutputs spec kind args ret).2 = .ok vars3)
    (hprov : specExprList cb3 vars3 spec.provides = .ok (ps, cb4)) :
    ∃ am cb5 eqId cb6 ap cb7 provId cb8,
      cb4.all ms = (am, cb5)
      ∧ cb5.exprsEqual p am = (eqId, cb6)
      ∧ (cb6.pushAssumption eqId).all ps = (ap, cb7)
      ∧ cb7.dedupExpr (.imp am ap) = (provId, cb8)
      ∧ callFn cb term spec kind args ret .caller (.partialDom p)
          = .ok (((cb8.extendAssertions rs).extendAssumptions [provId]).recordTermInstantiation term args ret)
      ∧ callFn cb term spec kind args ret .callee (.partialDom p)
          = .ok (((cb8.extendAssumptions rs).extendAssertions [provId]).recordTermInstantiation term args ret)
      ∧ cb8.conditions.assumptions = cb4.conditions.assumptions ++ [eqId]
      ∧ (MapWF cb4 →
          cb8.conditions.exprs[eqId]? = some (.eq p am)
          ∧ cb8.conditions.exprs[provId]? = some (.imp am ap)) := by
  have hne : ¬(spec.args.length ≠ args.length) := by simp [hlen]
  rcases hio : callInputsOutputs spec kind args ret with ⟨inputs, outputs⟩
  rw [hio] at hin hout
  rcases h5 : cb4.all ms with ⟨am, cb5⟩
  rcases h6 : cb5.exprsEqual p am with ⟨eqId, cb6⟩
  rcases h7 : (cb6.pushAssumption eqId).all ps with ⟨ap, cb7⟩
  rcases h8 : cb7.dedupExpr (.imp am ap) with ⟨provId, cb8⟩
  refine ⟨am, cb5, eqId, cb6, ap, cb7, provId, cb8, rfl, h6, h7, h8, ?_, ?_, ?_, ?_⟩
  · unfold callFn
    rw [if_neg hne, hio]
    simp only [hmod, hin, hreq, hmat, hout, hprov, h5, h6, h7, h8]
  · unfold callFn
    rw [if_neg hne, hio]
    simp only [hmod, hin, hreq, hmat, hout, hprov, h5, h6, h7, h8]
  · have e8 : cb8.conditions.assumptions = cb7.conditions.assumptions := by
      rw [show cb8 = (cb7.dedupExpr (.imp am ap)).2 from by rw [h8]]
      exact dedupExpr_assumptions
    have e7 : cb7.conditions.assumptions
        = (cb6.pushAssumption eqId).conditions.assumptions := by
      rw [show cb7 = ((cb6.pushAssumption eqId).all ps).2 from by rw [h7]]
      exact all_assumptions
    have e6 : cb6.conditions.assumptions = cb5.conditions.assumptions := by
      rw [show cb6 = (cb5.exprsEqual p am).2 from by rw [h6]]
      exact dedupExpr_assumptions
    have e5 : cb5.conditions.assumptions = cb4.conditions.assumptions := by
      rw [show cb5 = (cb4.all ms).2 from by rw [h5]]
      exact all_assumptions
    rw [e8, e7]
    show cb6.conditions.assumptions ++ [eqId] = _
    rw [e6, e5]
  · intro hwf
    have hwf5 : MapWF cb5 := by
      rw [show cb5 = (cb4.all ms).2 from by rw [h5]]
      exact all_mapWF hwf
    have heq6 : cb6.conditions.exprs[eqId]? = some (.eq p am) := by
      rw [show cb6 = (cb5.exprsEqual p am).2 from by rw [h6],
          show eqId = (cb5.exprsEqual p am).1 from by rw [h6]]
      exact dedupExpr_get hwf5
    have hwf6 : MapWF cb6 := by
      rw [show cb6 = (cb5.exprsEqual p am).2 from by rw [h6]]
      exact dedupExpr_mapWF hwf5
    have hwf7 : MapWF cb7 := by
      rw [show cb7 = ((cb6.pushAssumption eqId).all ps).2 from by rw [h7]]
      exact all_mapWF (pushAssumption_mapWF hwf6)
    constructor
    · have h7e : cb7.conditions.exprs[eqId]? = some (.eq p am) := by
        rw [show cb7 = ((cb6.pushAssumption eqId).all ps).2 from by rw [h7]]
        exact all_extends heq6
      rw [show cb8 = (cb7.dedupExpr (.imp am ap)).2 from by rw [h8]]
      exact dedupExpr_extends h7e
    · rw [show cb8 = (cb7.dedupExpr (.imp am ap)).2 from by rw [h8],
          show provId = (cb7.dedupExpr (.imp am ap)).1 from by rw [h8]]
      exact dedupExpr_get hwf7

/-! ## Concrete scenarios for claims C1 and C2 -/

/-- End-to-end scenario 2: a term spec with `requires: x > 0` and
`provides: result == x - 1`. -/
def scenario2Spec : TermSpec :=
  { args := ["x"], ret := "result",
    requires := [.gt (.var "x") (.constE (.int 0))],
    matchesCl := [],
    provides := [.eq (.var "result") (.sub (.var "x") (.constE (.int 1)))],
    modifies := [] }

/-- Builder with the argument `x` and the return value `result` allocated as
integer variables; their expression ids are 0 and 1. -/
def scenario2CB : CB :=
  ((CB.init.allocVariable .int "x").2.allocVariable .int "result").2

/-- A partial term spec with two `matches` clauses (the boolean arguments
`a` and `b` themselves) and no other clauses. -/
def c1Spec : TermSpec :=
  { args := ["a", "b"], ret := "r",
    requires := [], matchesCl := [.var "a", .var "b"], provides := [],
    modifies := [] }

/-- Builder with boolean variables `a`, `b`, the option's is-some flag `p`,
and the option's inner value `r_inner`; expression ids 0, 1, 2, 3. -/
def c1CB : CB :=
  ((((CB.init.allocVariable .bool "a").2.allocVariable .bool "b").2.allocVariable
      .bool "p").2.allocVariable .bool "r_inner").2

/-- The expression table built by the partial call of the C1 counterexample. -/
def c1Exprs : List Expr :=
  [.variable 0, .variable 1, .variable 2, .variable 3, .and 0 1, .eq 2 4,
   .constE (.bool true), .imp 4 6]

/-- A model for the C1 counterexample: `a = true`, every other variable
(including `b` and the is-some flag `p`) `false`. -/
def c1Env : Nat → Const := fun v => if v = 0 then .bool true else .bool false

/-- Does assumption `i` have the shape `Eq` with a disjunction (`Or`) on
either side?  (Syntactic check used to show no such assumption exists.) -/
def eqToOrCheck (es : List Expr) (i : Nat) : Bool :=
  match es[i]? with
  | some (.eq x y) =>
      (match es[y]? with
       | some (.or _ _) => true
       | _ => false)
      || (match es[x]? with
          | some (.or _ _) => true
          | _ => false)
  | _ => false

/-! ## Theorems for claims C1, C2 and C10 -/

/-- C2: clause routing at a term call.  General part: pinned on the
clause-evaluation pipeline, a total-domain call puts exactly one assertion
per `requires` clause and one assumption per `provides` clause into the
conditions when invoked from a caller, and the swapped sides when proving
the callee's own contract.  Concrete part (end-to-end scenario 2): a spec
`requires: x > 0`, `provides: result == x - 1` invoked as a constructor
from a caller yields exactly one assertion, `Lt(0, x)` (id 3, i.e. "x > 0"),
and exactly one assumption, `Eq(result, Sub(x, 1))` (id 6). -/
theorem c2_call_requires_provides_routing :
    (∀ (cb : CB) (term : Nat) (spec : TermSpec) (kind : TermKind)
        (args : List Symbolic) (ret : Symbolic)
        (vars1 vars2 vars3 : Variables) (cb1 cb2 cb3 cb4 : CB) (rs ps : List Nat),
      spec.args.length = args.length →
      modifiesLoop cb cb.conditions.state spec.modifies = .ok (vars1, cb1) →
      setAllVars vars1 (callInputsOutputs spec kind args ret).1 = .ok vars2 →
      specExprList cb1 vars2 spec.requires = .ok (rs, cb2) →
      specExprList cb2 vars2 spec.matchesCl = .ok ([], cb3) →
      setAllVars vars2 (callInputsOutputs spec kind args ret).2 = .ok vars3 →
      specExprList cb3 vars3 spec.provides = .ok (ps, cb4) →
      rs.length = spec.requires.length
      ∧ ps.length = spec.provides.length
      ∧ (∃ cbC, callFn cb term spec kind args ret .caller .total = .ok cbC
          ∧ cbC.conditions.assertions = cb4.conditions.assertions ++ rs
          ∧ cbC.conditions.assumptions = cb4.conditions.assumptions ++ ps)
      ∧ (∃ cbE, callFn cb term spec kind args ret .callee .total = .ok cbE
          ∧ cbE.conditions.assumptions = cb4.conditions.assumptions ++ rs
          ∧ cbE.conditions.assertions = cb4.conditions.assertions ++ ps))
    ∧ ((callFn scenario2CB 7 scenario2Spec .constructor [.scalar 0] (.scalar 1)
          .caller .total).map
        (fun cbR => (cbR.conditions.exprs, cbR.conditions.assumptions,
            cbR.conditions.assertions))
      = .ok ([.variable 0, .variable 1, .constE (.int 0), .lt 2 0,
              .constE (.int 1), .sub 0 4, .eq 1 5], [6], [3])) := by
  constructor
  · intro cb term spec kind args ret vars1 vars2 vars3 cb1 cb2 cb3 cb4 rs ps
      hlen hmod hin hreq hmat hout hprov
    obtain ⟨hc, he⟩ := callTotalRouting cb term spec kind args ret
      vars1 vars2 vars3 cb1 cb2 cb3 cb4 rs ps hlen hmod hin hreq hmat hout hprov
    exact ⟨specExprList_length _ _ _ _ _ hreq, specExprList_length _ _ _ _ _ hprov,
      ⟨_, hc, rfl, rfl⟩, ⟨_, he, rfl, rfl⟩⟩
  · rfl

/-- C2 witness: the general routing theorem instantiated on scenario 2 (the
pipeline hypotheses hold by computation, and the caller invocation appends
exactly the one requires id to assertions and the one provides id to
assumptions). -/
theorem c2_call_requires_provides_routing_witness :
    ∃ (vars1 vars2 vars3 : Variables) (cb1 cb2 cb3 cb4 : CB) (rs ps : List Nat),
      modifiesLoop scenario2CB scenario2CB.conditions.state scenario2Spec.modifies
        = .ok (vars1, cb1)
      ∧ setAllVars vars1 (callInputsOutputs scenario2Spec .constructor [.scalar 0]
            (.scalar 1)).1 = .ok vars2
      ∧ specExprList cb1 vars2 scenario2Spec.requires = .ok (rs, cb2)
      ∧ specExprList cb2 vars2 scenario2Spec.matchesCl = .ok ([], cb3)
      ∧ setAllVars vars2 (callInputsOutputs scenario2Spec .constructor [.scalar 0]
            (.scalar 1)).2 = .ok vars3
      ∧ specExprList cb3 vars3 scenario2Spec.provides = .ok (ps, cb4)
      ∧ rs.length = 1 ∧ ps.length = 1
      ∧ ∃ cbC, callFn scenario2CB 7 scenario2Spec .constructor [.scalar 0]
            (.scalar 1) .caller .total = .ok cbC
          ∧ cbC.conditions.assertions = cb4.conditions.assertions ++ rs
          ∧ cbC.conditions.assumptions = cb4.conditions.assumptions ++ ps := by
  have h := c2_call_requires_provides_routing.1 scenario2CB 7 scenario2Spec
    .constructor [.scalar 0] (.scalar 1) _ _ _ _ _ _ _ _ _
    rfl rfl rfl rfl rfl rfl rfl
  exact ⟨_, _, _, _, _, _, _, _, _, rfl, rfl, rfl, rfl, rfl, rfl, h.1, h.2.1, h.2.2.1⟩

/-- C1 as stated is false: for a partial call whose spec has the two
`matches` clauses `a` and `b`, the built conditions contain no assumption
equating anything with a disjunction (`Or`) at all — the is-some flag `p` is
instead equated with the conjunction `And(a, b)` (assumption id 5 over
table `c1Exprs`).  Moreover the claim's law "`is_some(result) ⟺
OR(matches)` in every satisfying model" fails: the model `c1Env` satisfies
every assumption, the disjunction of the matches clauses is true (the first
clause `a` evaluates to true), yet the is-some flag evaluates to false. -/
theorem c1_counterexample_matches_not_disjoined :
    ((callFn c1CB 9 c1Spec .constructor [.scalar 0, .scalar 1] (.scalar 3)
        .caller (.partialDom 2)).map
      (fun cbR => (cbR.conditions.exprs, cbR.conditions.assumptions,
          cbR.conditions.assertions))
      = .ok (c1Exprs, [5, 7], []))
    ∧ (∀ i ∈ ([5, 7] : List Nat), evalFuel c1Exprs c1Env 4 i = some (.bool true))
    ∧ evalFuel c1Exprs c1Env 4 0 = some (.bool true)
    ∧ evalFuel c1Exprs c1Env 4 2 = some (.bool false)
    ∧ (([5, 7] : List Nat).all (fun i => !(eqToOrCheck c1Exprs i)) = true) := by
  exact ⟨rfl, by decide, rfl, rfl, by decide⟩

/-- C1 (amended): for a partial (option-returning) call, the conditions gain
an assumption equating the option's is-some flag with the `CB.all`
conjunction of the `matches` clause values (`Eq(is_some, all(matches))`),
and the `provides` clauses are replaced by the single implication guarded by
that same conjunction (`Imp(all(matches), all(provides))`), which is then
routed by invocation side. -/
theorem c1_partial_call_conjunction_guard
    (cb : CB) (term : Nat) (spec : TermSpec) (kind : TermKind)
    (args : List Symbolic) (ret : Symbolic) (p : Nat)
    (vars1 vars2 vars3 : Variables) (cb1 cb2 cb3 cb4 : CB)
    (rs ms ps : List Nat)
    (hlen : spec.args.length = args.length)
    (hmod : modifiesLoop cb cb.conditions.state spec.modifies = .ok (vars1, cb1))
    (hin : setAllVars vars1 (callInputsOutputs spec kind args ret).1 = .ok vars2)
    (hreq : specExprList cb1 vars2 spec.requires = .ok (rs, cb2))
    (hmat : specExprList cb2 vars2 spec.matchesCl = .ok (ms, cb3))
    (hout : setAllVars vars2 (callInputsOutputs spec kind args ret).2 = .ok vars3)
    (hprov : specExprList cb3 vars3 spec.provides = .ok (ps, cb4)) :
    ∃ am cb5 eqId cb6 ap cb7 provId cb8,
      cb4.all ms = (am, cb5)
      ∧ cb5.exprsEqual p am = (eqId, cb6)
      ∧ (cb6.pushAssumption eqId).all ps = (ap, cb7)
      ∧ cb7.dedupExpr (.imp am ap) = (provId, cb8)
      ∧ callFn cb term spec kind args ret .caller (.partialDom p)
          = .ok (((cb8.extendAssertions rs).extendAssumptions [provId]).recordTermInstantiation term args ret)
      ∧ callFn cb term spec kind args ret .callee (.partialDom p)
          = .ok (((cb8.extendAssumptions rs).extendAssertions [provId]).recordTermInstantiation term args ret)
      ∧ cb8.conditions.assumptions = cb4.conditions.assumptions ++ [eqId]
      ∧ (((cb8.extendAssertions rs).extendAssumptions [provId]).recordTermInstantiation
            term args ret).conditions.assumptions
          = cb4.conditions.assumptions ++ [eqId] ++ [provId]
      ∧ (MapWF cb4 →
          cb8.conditions.exprs[eqId]? = some (.eq p am)
          ∧ cb8.conditions.exprs[provId]? = some (.imp am ap)) := by
  obtain ⟨am, cb5, eqId, cb6, ap, cb7, provId, cb8, h5, h6, h7, h8, hc, he, ha, hw⟩ :=
    callPartialShape cb term spec kind args ret p vars1 vars2 vars3
      cb1 cb2 cb3 cb4 rs ms ps hlen hmod hin hreq hmat hout hprov
  refine ⟨am, cb5, eqId, cb6, ap, cb7, provId, cb8, h5, h6, h7, h8, hc, he, ha, ?_, hw⟩
  show cb8.conditions.assumptions ++ [provId] = _
  rw [ha]

/-- C1 witness: the amended theorem instantiated on the concrete partial
call of the counterexample (two matches clauses `a`, `b`; is-some flag `p`
at expression id 2). -/
theorem c1_partial_call_conjunction_guard_witness :
    ∃ (vars1 vars2 vars3 : Variables) (cb1 cb2 cb3 cb4 : CB) (rs ms ps : List Nat)
      (am : Nat) (cb5 : CB) (eqId : Nat) (cb6 : CB) (ap : Nat) (cb7 : CB)
      (provId : Nat) (cb8 : CB),
      modifiesLoop c1CB c1CB.conditions.state c1Spec.modifies = .ok (vars1, cb1)
      ∧ setAllVars vars1 (callInputsOutputs c1Spec .constructor
            [.scalar 0, .scalar 1] (.scalar 3)).1 = .ok vars2
      ∧ specExprList cb1 vars2 c1Spec.requires = .ok (rs, cb2)
      ∧ specExprList cb2 vars2 c1Spec.matchesCl = .ok (ms, cb3)
      ∧ setAllVars vars2 (callInputsOutputs c1Spec .constructor
            [.scalar 0, .scalar 1] (.scalar 3)).2 = .ok vars3
      ∧ specExprList cb3 vars3 c1Spec.provides = .ok (ps, cb4)
      ∧ cb4.all ms = (am, cb5)
      ∧ cb5.exprsEqual 2 am = (eqId, cb6)
      ∧ (cb6.pushAssumption eqId).all ps = (ap, cb7)
      ∧ cb7.dedupExpr (.imp am ap) = (provId, cb8)
      ∧ cb8.conditions.assumptions = cb4.conditions.assumptions ++ [eqId] := by
  obtain ⟨am, cb5, eqId, cb6, ap, cb7, provId, cb8, h5, h6, h7, h8, hc, he, ha, hfin, hw⟩ :=
    c1_partial_call_conjunction_guard c1CB 9 c1Spec .constructor
      [.scalar 0, .scalar 1] (.scalar 3) 2 _ _ _ _ _ _ _ _ _ _
      rfl rfl rfl rfl rfl rfl rfl
  exact ⟨_, _, _, _, _, _, _, _, _, _, am, cb5, eqId, cb6, ap, cb7, provId, cb8,
    rfl, rfl, rfl, rfl, rfl, rfl, h5, h6, h7, h8, ha⟩

/-- C10: empty clause lists default to truth-value identities.  (a) The
builder's conjunction of an empty list is the interned constant `true` and
(b) its disjunction of an empty list is the interned constant `false`.
Consequently (c) a term spec with no `requires` clauses imposes no
precondition (a caller invocation adds no assertion), (d) a state variable
with no recorded modification conditions gets its default assumed
unconditionally (no `Imp`/`Not` guard is built around it), and (e) a
partial call whose spec declares zero `matches` clauses has its is-some
flag assumed equal to the constant `true`. -/
theorem c10_empty_clause_identities :
    (∀ cb : CB, cb.all [] = cb.boolean true)
    ∧ (∀ cb : CB, cb.any [] = cb.boolean false)
    ∧ (∀ (cb : CB) (term : Nat) (spec : TermSpec) (kind : TermKind)
        (args : List Symbolic) (ret : Symbolic)
        (vars1 vars2 vars3 : Variables) (cb1 cb3 cb4 : CB) (ps : List Nat),
      spec.requires = [] →
      spec.args.length = args.length →
      modifiesLoop cb cb.conditions.state spec.modifies = .ok (vars1, cb1) →
      setAllVars vars1 (callInputsOutputs spec kind args ret).1 = .ok vars2 →
      specExprList cb1 vars2 spec.matchesCl = .ok ([], cb3) →
      setAllVars vars2 (callInputsOutputs spec kind args ret).2 = .ok vars3 →
      specExprList cb3 vars3 spec.provides = .ok (ps, cb4) →
      ∃ cbC, callFn cb term spec kind args ret .caller .total = .ok cbC
        ∧ cbC.conditions.assertions = cb4.conditions.assertions)
    ∧ (∀ (cb : CB) (st : StateDecl) (value : Symbolic) (vars : Variables)
        (defaultV : Symbolic) (cbE : CB) (d : Nat),
      Variables.expect cb.conditions.state st.name = .ok value →
      Variables.set ([] : Variables) st.name value = .ok vars →
      specExpr cb vars st.default = .ok (defaultV, cbE) →
      condsGet cbE.stateModificationConds st.name = none →
      asScalarE defaultV = .ok d →
      stateDefault cb st = .ok (cbE.pushAssumption d)
      ∧ (cbE.pushAssumption d).conditions.assumptions
          = cbE.conditions.assumptions ++ [d])
    ∧ (∀ (cb : CB) (term : Nat) (spec : TermSpec) (kind : TermKind)
        (args : List Symbolic) (ret : Symbolic) (p : Nat)
        (vars1 vars2 vars3 : Variables) (cb1 cb2 cb4 : CB) (rs ps : List Nat),
      spec.matchesCl = [] →
      spec.args.length = args.length →
      modifiesLoop cb cb.conditions.state spec.modifies = .ok (vars1, cb1) →
      setAllVars vars1 (callInputsOutputs spec kind args ret).1 = .ok vars2 →
      specExprList cb1 vars2 spec.requires = .ok (rs, cb2) →
      setAllVars vars2 (callInputsOutputs spec kind args ret).2 = .ok vars3 →
      specExprList cb2 vars3 spec.provides = .ok (ps, cb4) →
      MapWF cb4 →
      ∃ am eqId cbC,
        callFn cb term spec kind args ret .caller (.partialDom p) = .ok cbC
        ∧ cbC.conditions.exprs[eqId]? = some (.eq p am)
        ∧ cbC.conditions.exprs[am]? = some (.constE (.bool true))
        ∧ eqId ∈ cbC.conditions.assumptions) := by
  refine ⟨fun _ => rfl, fun _ => rfl, ?_, ?_, ?_⟩
  · intro cb term spec kind args ret vars1 vars2 vars3 cb1 cb3 cb4 ps
      hre hlen hmod hin hmat hout hprov
    have hreq : specExprList cb1 vars2 spec.requires = .ok ([], cb1) := by
      rw [hre]; simp only [specExprList]
    obtain ⟨hc, -⟩ := callTotalRouting cb term spec kind args ret
      vars1 vars2 vars3 cb1 cb1 cb3 cb4 [] ps hlen hmod hin hreq hmat hout hprov
    refine ⟨_, hc, ?_⟩
    show cb4.conditions.assertions ++ [] = cb4.conditions.assertions
    simp
  · intro cb st value vars defaultV cbE d hexp hset hspec hnone hsc
    constructor
    · unfold stateDefault
      simp only [hexp, hset, hspec, hnone, hsc]
    · rfl
  · intro cb term spec kind args ret p vars1 vars2 vars3 cb1 cb2 cb4 rs ps
      hma hlen hmod hin hreq hout hprov hwf
    have hmat : specExprList cb2 vars2 spec.matchesCl = .ok ([], cb2) := by
      rw [hma]; simp only [specExprList]
    obtain ⟨am, cb5, eqId, cb6, ap, cb7, provId, cb8, h5, h6, h7, h8, hc, -, ha, hw⟩ :=
      callPartialShape cb term spec kind args ret p vars1 vars2 vars3 cb1 cb2 cb2 cb4
        rs [] ps hlen hmod hin hreq hmat hout hprov
    refine ⟨am, eqId, _, hc, ?_, ?_, ?_⟩
    · exact (hw hwf).1
    · have h50 : cb4.all ([] : List Nat) = cb4.dedupExpr (.constE (.bool true)) := rfl
      rw [h50] at h5
      have ham5 : cb5.conditions.exprs[am]? = some (.constE (.bool true)) := by
        rw [show cb5 = (cb4.dedupExpr (.constE (.bool true))).2 from by rw [h5],
            show am = (cb4.dedupExpr (.constE (.bool true))).1 from by rw [h5]]
        exact dedupExpr_get hwf
      have ham6 : cb6.conditions.exprs[am]? = some (.constE (.bool true)) := by
        rw [show cb6 = (cb5.exprsEqual p am).2 from by rw [h6]]
        exact dedupExpr_extends ham5
      have ham7 : cb7.conditions.exprs[am]? = some (.constE (.bool true)) := by
        rw [show cb7 = ((cb6.pushAssumption eqId).all ps).2 from by rw [h7]]
        exact all_extends ham6
      have ham8 : cb8.conditions.exprs[am]? = some (.constE (.bool true)) := by
        rw [show cb8 = (cb7.dedupExpr (.imp am ap)).2 from by rw [h8]]
        exact dedupExpr_extends ham7
      exact ham8
    · show eqId ∈ (((cb8.extendAssertions rs).extendAssumptions
        [provId]).recordTermInstantiation term args ret).conditions.assumptions
      have hfin : (((cb8.extendAssertions rs).extendAssumptions
          [provId]).recordTermInstantiation term args ret).conditions.assumptions
          = cb8.conditions.assumptions ++ [provId] := rfl
      rw [hfin, ha]
      simp

/-- A builder whose global state holds one variable `flags`. -/
def c10CB : CB :=
  { CB.init with conditions :=
      { CB.init.conditions with state := [("flags", Symbolic.scalar 0)] } }

/-- A state declaration defaulting `flags` to the constant `true`. -/
def c10State : StateDecl := { name := "flags", default := .constE (.bool true) }

/-- Witness for C10: on a concrete builder with a `flags` state variable and
no recorded modification conditions, `state_default` assumes the default
unconditionally. -/
theorem c10_empty_clause_identities_witness :
    ∃ cbE : CB,
      specExpr c10CB [("flags", Symbolic.scalar 0)] c10State.default
        = .ok (Symbolic.scalar 0, cbE)
      ∧ stateDefault c10CB c10State = .ok (cbE.pushAssumption 0)
      ∧ (cbE.pushAssumption 0).conditions.assumptions
          = cbE.conditions.assumptions ++ [0] := by
  obtain ⟨h1, h2⟩ := c10_empty_clause_identities.2.2.2.1 c10CB c10State
    (Symbolic.scalar 0) [("flags", Symbolic.scalar 0)] (Symbolic.scalar 0) _ 0
    rfl rfl rfl rfl rfl
  exact ⟨_, rfl, h1, h2⟩

/-! ## Constant encoding and literal decoding (claim C7)

`Solver::constant` (solver.rs) renders a `Const` as an SMT atom through the
`easy-smt` context: `Bool` maps to the atoms `true`/`false`, `Int` to the
decimal rendering of the `i128` (negative values carry a leading `-`), and
`BitVector(w, v)` to `smt.binary(w, v)`, which prints `#b` followed by the
binary digits of `v` left-padded with `0` to width `w` (never truncating:
a value wider than `w` prints all its digits).  `easy-smt` is a third-party
dependency not present in the tree; its atom rendering is modeled here
exactly as described.  `Solver::const_from_literal` parses an atom back:
`true`/`false`, a `#x` prefix (hex, width = 4·digits, `u128` parse), a `#b`
prefix (binary, width = digits, `u128` parse), a string starting with an
ascii digit (`i128` parse), anything else is an error.  `u128`/`i128`
overflow during `from_str_radix`/`parse` is modeled as the exact-value
bounds `2^128`/`2^127`. -/

/-- `char::is_ascii_digit`. -/
def isAsciiDigit (c : Char) : Bool := '0' ≤ c && c ≤ '9'

/-- `char::to_digit(radix)`: digit value of a character, checked against
the radix (Rust accepts `0-9`, `a-f`, `A-F` and then requires the value to
be below the radix). -/
def digitVal (base : Nat) (c : Char) : Option Nat :=
  if '0' ≤ c ∧ c ≤ '9' then
    if c.toNat - 48 < base then some (c.toNat - 48) else none
  else if 'a' ≤ c ∧ c ≤ 'f' then
    if c.toNat - 87 < base then some (c.toNat - 87) else none
  else if 'A' ≤ c ∧ c ≤ 'F' then
    if c.toNat - 55 < base then some (c.toNat - 55) else none
  else none

/-- Accumulator loop of `from_str_radix`: most-significant digit first. -/
def parseRadixAux (base : Nat) : List Char → Nat → Option Nat
  | [], acc => some acc
  | c :: cs, acc =>
      match digitVal base c with
      | none => none
      | some d => parseRadixAux base cs (acc * base + d)

/-- `u128::from_str_radix` (value part): fails on an empty string or an
invalid digit; the overflow check is applied at the call sites. -/
def parseRadix (base : Nat) (cs : List Char) : Option Nat :=
  if cs = [] then none else parseRadixAux base cs 0

/-- The digit character for a value below 10 (`{:b}`/decimal formatting). -/
def digitChar (d : Nat) : Char := Char.ofNat (48 + d)

/-- Digit production loop of Rust's integer `Display`/`{:b}` formatting,
least-significant digit first, fueled (the fuel is the number itself, which
bounds the digit count). -/
def digitsAux (base : Nat) : Nat → Nat → List Char
  | 0, _ => []
  | fuel + 1, n =>
      if n = 0 then [] else digitChar (n % base) :: digitsAux base fuel (n / base)

/-- The digit string of `n` in the given base, most-significant first;
`0` prints as `"0"`. -/
def natDigits (base : Nat) (n : Nat) : List Char :=
  if n = 0 then ['0'] else (digitsAux base n n).reverse

/-- Rust's `{:0>w$b}` padding as used by `easy-smt`'s `binary`: the binary
digits of `v`, left-padded with `0` to width `w` (never truncated). -/
def rustBinPad (w v : Nat) : List Char :=
  List.replicate (w - (natDigits 2 v).length) '0' ++ natDigits 2 v

/-- Decimal rendering of an `i128` (`Display`). -/
def intDecStr : Int → String
  | .ofNat n => String.mk (natDigits 10 n)
  | .negSucc n => String.mk ('-' :: natDigits 10 (n + 1))

/-- `Solver::constant` (solver.rs): render a constant as an SMT atom.  The
`Unspecified` case is an `unimplemented!` panic in the source. -/
def solverConstant : Const → Except String String
  | .bool true => .ok "true"
  | .bool false => .ok "false"
  | .int v => .ok (intDecStr v)
  | .bitVector w v => .ok (String.mk ('#' :: 'b' :: rustBinPad w v))
  | .unspecified => .error "panic: constant of unspecified type"

/-- `Solver::const_from_literal` (solver.rs) on the atom's character list:
`true`/`false` atoms, `#x`-prefixed hex (width is four times the digit
count), `#b`-prefixed binary (width is the digit count), ascii-digit-led
decimal (`i128`), otherwise an unsupported-literal error. -/
def constFromLiteralL (cs : List Char) : Except String Const :=
  if cs = ['t', 'r', 'u', 'e'] then .ok (.bool true)
  else if cs = ['f', 'a', 'l', 's', 'e'] then .ok (.bool false)
  else
    match cs with
    | [] => .error "unsupported smt literal"
    | c :: rest =>
        if c = '#' then
          match rest with
          | [] => .error "unsupported smt literal"
          | c2 :: x =>
              if c2 = 'x' then
                match parseRadix 16 x with
                | some v =>
                    if v < 2 ^ 128 then .ok (.bitVector (x.length * 4) v)
                    else .error "number too large to fit in target type"
                | none => .error "invalid digit found in string"
              else if c2 = 'b' then
                match parseRadix 2 x with
                | some v =>
                    if v < 2 ^ 128 then .ok (.bitVector x.length v)
                    else .error "number too large to fit in target type"
                | none => .error "invalid digit found in string"
              else .error "unsupported smt literal"
        else if isAsciiDigit c then
          match parseRadix 10 cs with
          | some v =>
              if v < 2 ^ 127 then .ok (.int (Int.ofNat v))
              else .error "number too large to fit in target type"
          | none => .error "invalid digit found in string"
        else .error "unsupported smt literal"

/-- `Solver::const_from_literal` on a string atom. -/
def constFromLiteral (atom : String) : Except String Const :=
  constFromLiteralL atom.data

theorem cons_ne_of_head {c d : Char} {cs ds : List Char} (h : c ≠ d) :
    c :: cs ≠ d :: ds := by
  intro he
  injection he with h1 _
  exact h h1

theorem digit_ne {c : Char} (h : isAsciiDigit c = true) {d : Char}
    (hd : isAsciiDigit d = false) : c ≠ d := by
  intro he
  subst he
  rw [h] at hd
  simp at hd

theorem isAsciiDigit_digitChar {d : Nat} (h : d < 10) :
    isAsciiDigit (digitChar d) = true := by
  interval_cases d <;> decide

theorem digitVal_digitChar {d base : Nat} (hd : d < base) (hb : base ≤ 10) :
    digitVal base (digitChar d) = some d := by
  have h10 : d < 10 := hd.trans_le hb
  interval_cases d <;> interval_cases base <;> decide

theorem parseRadixAux_singleton {base : Nat} {c : Char} {d acc : Nat}
    (h : digitVal base c = some d) :
    parseRadixAux base [c] acc = some (acc * base + d) := by
  simp only [parseRadixAux, h]

theorem digitsAux_mem_digit {base : Nat} :
    ∀ (fuel n : Nat) (c : Char), 2 ≤ base → base ≤ 10 →
      c ∈ digitsAux base fuel n → isAsciiDigit c = true := by
  intro fuel
  induction fuel with
  | zero => intro n c _ _ h; simp [digitsAux] at h
  | succ fuel ih =>
      intro n c h2 hb h
      by_cases h0 : n = 0
      · simp [digitsAux, h0] at h
      · simp only [digitsAux, h0, if_false] at h
        rcases List.mem_cons.mp h with rfl | h
        · exact isAsciiDigit_digitChar ((Nat.mod_lt _ (by omega)).trans_le hb)
        · exact ih _ _ h2 hb h

theorem natDigits_mem_digit {base n : Nat} {c : Char} (h2 : 2 ≤ base)
    (hb : base ≤ 10) (h : c ∈ natDigits base n) : isAsciiDigit c = true := by
  by_cases h0 : n = 0
  · simp [natDigits, h0] at h
    subst h
    decide
  · simp only [natDigits, h0, if_false, List.mem_reverse] at h
    exact digitsAux_mem_digit n n c h2 hb h

theorem natDigits_ne_nil {base n : Nat} : natDigits base n ≠ [] := by
  by_cases h0 : n = 0
  · simp [natDigits, h0]
  · cases n with
    | zero => exact absurd rfl h0
    | succ m => simp [natDigits, digitsAux, h0]

theorem parseRadixAux_append (base : Nat) :
    ∀ (cs ds : List Char) (acc : Nat),
      parseRadixAux base (cs ++ ds) acc
        = (parseRadixAux base cs acc).bind (fun m => parseRadixAux base ds m) := by
  intro cs
  induction cs with
  | nil => intro ds acc; simp [parseRadixAux]
  | cons c cs ih =>
      intro ds acc
      simp only [List.cons_append, parseRadixAux]
      cases digitVal base c with
      | none => simp
      | some d => simp [ih]

theorem digitsAux_parse {base : Nat} :
    ∀ (fuel n acc : Nat), 2 ≤ base → base ≤ 10 → n ≤ fuel →
      parseRadixAux base ((digitsAux base fuel n).reverse) acc
        = some (acc * base ^ (digitsAux base fuel n).length + n) := by
  intro fuel
  induction fuel with
  | zero =>
      intro n acc h2 hb hn
      interval_cases n
      simp [digitsAux, parseRadixAux]
  | succ fuel ih =>
      intro n acc h2 hb hn
      by_cases h0 : n = 0
      · subst h0
        simp [digitsAux, parseRadixAux]
      · simp only [digitsAux, h0, if_false, List.reverse_cons, List.length_cons]
        rw [parseRadixAux_append]
        have hdiv : n / base ≤ fuel := by
          have := Nat.div_lt_self (Nat.pos_of_ne_zero h0) (by omega : 1 < base)
          omega
        rw [ih (n / base) acc h2 hb hdiv]
        simp only [Option.some_bind]
        rw [parseRadixAux_singleton (digitVal_digitChar (Nat.mod_lt _ (by omega)) hb)]
        congr 1
        rw [pow_succ, ← Nat.mul_assoc]
        have key : (acc * base ^ (digitsAux base fuel (n / base)).length
            + n / base) * base + n % base
            = acc * base ^ (digitsAux base fuel (n / base)).length * base + n := by
          rw [Nat.add_mul, Nat.add_assoc, Nat.mul_comm (n / base) base,
            Nat.div_add_mod]
        omega

theorem parseRadixAux_natDigits {base n : Nat} (h2 : 2 ≤ base) (hb : base ≤ 10) :
    parseRadixAux base (natDigits base n) 0 = some n := by
  by_cases h0 : n = 0
  · subst h0
    rw [show natDigits base 0 = ['0'] from rfl,
      parseRadixAux_singleton (show digitVal base '0' = some 0 from
        @digitVal_digitChar 0 base (by omega) hb)]
    simp
  · simp only [natDigits, h0, if_false]
    rw [digitsAux_parse n n 0 h2 hb le_rfl]
    simp

theorem parse_natDigits {base n : Nat} (h2 : 2 ≤ base) (hb : base ≤ 10) :
    parseRadix base (natDigits base n) = some n := by
  rw [parseRadix, if_neg natDigits_ne_nil]
  exact parseRadixAux_natDigits h2 hb

theorem parseRadixAux_replicate_zero :
    ∀ (k acc : Nat), parseRadixAux 2 (List.replicate k '0') acc
      = some (acc * 2 ^ k) := by
  intro k
  induction k with
  | zero => intro acc; simp [parseRadixAux]
  | succ k ih =>
      intro acc
      simp only [List.replicate_succ, parseRadixAux]
      rw [show digitVal 2 '0' = some 0 from by decide]
      show parseRadixAux 2 (List.replicate k '0') (acc * 2 + 0) = some (acc * 2 ^ (k + 1))
      rw [ih]
      congr 1
      ring

theorem digitsAux_two_length_le :
    ∀ (fuel n w : Nat), n ≤ fuel → n < 2 ^ w →
      (digitsAux 2 fuel n).length ≤ w := by
  intro fuel
  induction fuel with
  | zero => intro n w hn _; interval_cases n; simp [digitsAux]
  | succ fuel ih =>
      intro n w hn hw
      by_cases h0 : n = 0
      · simp [digitsAux, h0]
      · simp only [digitsAux, h0, if_false, List.length_cons]
        have hw1 : 1 ≤ w := by
          by_contra h
          have : w = 0 := by omega
          subst this
          simp at hw
          omega
        have hpow : 2 ^ (w - 1) * 2 = 2 ^ w := by
          rw [← pow_succ]
          congr 1
          omega
        have hdiv2 : n / 2 < 2 ^ (w - 1) := by omega
        have hdivf : n / 2 ≤ fuel := by omega
        have := ih (n / 2) (w - 1) hdivf hdiv2
        omega

theorem natDigits_two_length_le {v w : Nat} (hw : 1 ≤ w) (hv : v < 2 ^ w) :
    (natDigits 2 v).length ≤ w := by
  by_cases h0 : v = 0
  · simp [natDigits, h0]
    omega
  · simp only [natDigits, h0, if_false, List.length_reverse]
    exact digitsAux_two_length_le v v w le_rfl hv

theorem rustBinPad_length {w v : Nat} (hw : 1 ≤ w) (hv : v < 2 ^ w) :
    (rustBinPad w v).length = w := by
  have := natDigits_two_length_le hw hv
  simp only [rustBinPad, List.length_append, List.length_replicate]
  omega

theorem parse_rustBinPad {w v : Nat} : parseRadix 2 (rustBinPad w v) = some v := by
  have hne : rustBinPad w v ≠ [] := by
    simp only [rustBinPad]
    intro h
    exact natDigits_ne_nil (List.append_eq_nil.mp h).2
  rw [parseRadix, if_neg hne]
  simp only [rustBinPad]
  rw [parseRadixAux_append, parseRadixAux_replicate_zero]
  simp only [Nat.zero_mul, Option.some_bind]
  exact parseRadixAux_natDigits (by omega) (by omega)

/-- C7 counterexample: constant encoding does not round-trip on the whole
claimed domain.  A negative integer constant renders as a `-`-led atom that
`const_from_literal` rejects (it only accepts digit-led numbers), and the
zero-width bit-vector `BitVector(0, 0)` (which satisfies the claim's
`0 <= v < 2^w` bound) renders as `#b0` — Rust's padding never prints fewer
than one digit — and decodes to `BitVector(1, 0)`, changing the width. -/
theorem c7_counterexample_negative_int_and_zero_width :
    (solverConstant (.int (-1)) = .ok "-1"
      ∧ constFromLiteral "-1" = .error "unsupported smt literal")
    ∧ (solverConstant (.bitVector 0 0) = .ok "#b0"
      ∧ constFromLiteral "#b0" = .ok (.bitVector 1 0)
      ∧ Const.bitVector 1 0 ≠ Const.bitVector 0 0) :=
  ⟨⟨rfl, rfl⟩, rfl, rfl, by decide⟩

/-- C7 (amended): constant encoding round-trips on the representable
domain: booleans always; integer constants `Int(v)` when `0 ≤ v < 2^127`
(negative values render with a `-` that the decoder rejects, and `i128`
parsing bounds the magnitude); bit-vectors `BitVector(w, v)` when
`1 ≤ w`, `v < 2^w` and `v < 2^128` (the `u128` parse bound), recovering the
exact width `w`. -/
theorem c7_constant_round_trip_restricted :
    (∀ b : Bool, ∃ s, solverConstant (.bool b) = .ok s
        ∧ constFromLiteral s = .ok (.bool b))
    ∧ (∀ v : Int, 0 ≤ v → v < 2 ^ 127 →
        ∃ s, solverConstant (.int v) = .ok s
          ∧ constFromLiteral s = .ok (.int v))
    ∧ (∀ w v : Nat, 1 ≤ w → v < 2 ^ w → v < 2 ^ 128 →
        ∃ s, solverConstant (.bitVector w v) = .ok s
          ∧ constFromLiteral s = .ok (.bitVector w v)) := by
  refine ⟨?_, ?_, ?_⟩
  · intro b
    cases b
    · exact ⟨"false", rfl, rfl⟩
    · exact ⟨"true", rfl, rfl⟩
  · intro v hv0 hv127
    obtain ⟨n, rfl⟩ := Int.eq_ofNat_of_zero_le hv0
    refine ⟨String.mk (natDigits 10 n), rfl, ?_⟩
    show constFromLiteralL (natDigits 10 n) = .ok (.int (.ofNat n))
    obtain ⟨c, rest, hcons⟩ :=
      List.exists_cons_of_ne_nil (@natDigits_ne_nil 10 n)
    have hc : isAsciiDigit c = true :=
      @natDigits_mem_digit 10 n c (by omega) (by omega)
        (by rw [hcons]; exact List.mem_cons_self _ _)
    have hparse : parseRadix 10 (c :: rest) = some n := by
      rw [← hcons]
      exact parse_natDigits (by omega) (by omega)
    have hn127 : n < 2 ^ 127 := by exact_mod_cast hv127
    rw [hcons]
    simp only [constFromLiteralL,
      if_neg (cons_ne_of_head (digit_ne hc (show isAsciiDigit 't' = false by decide))),
      if_neg (cons_ne_of_head (digit_ne hc (show isAsciiDigit 'f' = false by decide))),
      if_neg (digit_ne hc (show isAsciiDigit '#' = false by decide)),
      if_pos hc, hparse, if_pos hn127]
  · intro w v hw hv hv128
    refine ⟨String.mk ('#' :: 'b' :: rustBinPad w v), rfl, ?_⟩
    show constFromLiteralL ('#' :: 'b' :: rustBinPad w v) = .ok (.bitVector w v)
    simp only [constFromLiteralL,
      if_neg (cons_ne_of_head (show ('#' : Char) ≠ 't' by decide)),
      if_neg (cons_ne_of_head (show ('#' : Char) ≠ 'f' by decide)),
      if_pos (show ('#' : Char) = '#' from rfl),
      if_neg (show ¬(('b' : Char) = 'x') by decide),
      if_pos (show ('b' : Char) = 'b' from rfl),
      parse_rustBinPad, if_pos hv128, rustBinPad_length hw hv]
    simp

/-! ## Dynamic rotate encoding (claim C6)

`Solver::encode_rotate` (solver.rs) desugars a rotate by a dynamic amount
into shifts and bit arithmetic, since SMT `rotate_left` takes only static
amounts: with `width_as_bv` the width rendered as a `width`-bit literal,
`wrapped_amount = bvurem(amount, width_as_bv)` and
`wrapped_delta = bvsub(width_as_bv, wrapped_amount)`, a left rotation is
`bvor(bvshl(source, wrapped_amount), bvlshr(source, wrapped_delta))` and a
right rotation mirrors the two shift amounts.  S-expressions and the
`easy-smt` builder calls are embedded below, together with a reference
evaluator for the emitted bit-vector fragment following SMT-LIB semantics
(`bvshl`/`bvlshr` zero out once the amount reaches the width, `bvurem` by
zero is the dividend, subtraction wraps). -/

inductive SExpr where
  | atom : String → SExpr
  | listE : List SExpr → SExpr

/-- `easy-smt`'s `binary`: a `#b` bit-vector literal, zero-padded to the
width. -/
def smtBinary (w v : Nat) : SExpr :=
  .atom (String.mk ('#' :: 'b' :: rustBinPad w v))

def bvor (a b : SExpr) : SExpr := .listE [.atom "bvor", a, b]

def bvshl (a b : SExpr) : SExpr := .listE [.atom "bvshl", a, b]

def bvlshr (a b : SExpr) : SExpr := .listE [.atom "bvlshr", a, b]

def bvurem (a b : SExpr) : SExpr := .listE [.atom "bvurem", a, b]

def bvsub (a b : SExpr) : SExpr := .listE [.atom "bvsub", a, b]

inductive RotationDirection where
  | left
  | right

/-- `Solver::encode_rotate` (solver.rs). -/
def encodeRotate (op : RotationDirection) (source amount : SExpr) (width : Nat) :
    SExpr :=
  let widthAsBv := smtBinary width width
  let wrappedAmount := bvurem amount widthAsBv
  let wrappedDelta := bvsub widthAsBv wrappedAmount
  match op with
  | .left => bvor (bvshl source wrappedAmount) (bvlshr source wrappedDelta)
  | .right => bvor (bvshl source wrappedDelta) (bvlshr source wrappedAmount)

/-- Value of a `#b` bit-vector literal atom of the expected width. -/
def bvLitVal (w : Nat) (s : String) : Option Nat :=
  match s.data with
  | c1 :: c2 :: x =>
      if c1 = '#' ∧ c2 = 'b' ∧ x.length = w then parseRadix 2 x else none
  | _ => none

/-- Reference evaluator for the emitted fragment over `w`-bit values
(SMT-LIB semantics), fueled by expression depth. -/
def evalBV (w : Nat) : Nat → SExpr → Option Nat
  | 0, _ => none
  | _ + 1, .atom s => bvLitVal w s
  | fuel + 1, .listE [.atom op, a, b] =>
      match evalBV w fuel a, evalBV w fuel b with
      | some va, some vb =>
          if op = "bvor" then some (va ||| vb)
          else if op = "bvshl" then some ((va <<< vb) % 2 ^ w)
          else if op = "bvlshr" then some (va >>> vb)
          else if op = "bvurem" then some (if vb = 0 then va else va % vb)
          else if op = "bvsub" then some ((va + (2 ^ w - vb)) % 2 ^ w)
          else none
      | _, _ => none
  | _ + 1, .listE _ => none

/-- True left rotation of a `w`-bit value by `k` (the low `w - k % w` bits
move up by `k % w` places, the high bits wrap to the bottom). -/
def rotateLeftSpec (w x k : Nat) : Nat :=
  (x % 2 ^ (w - k % w)) * 2 ^ (k % w) + x / 2 ^ (w - k % w)

/-- True right rotation of a `w`-bit value by `k`. -/
def rotateRightSpec (w x k : Nat) : Nat :=
  (x % 2 ^ (k % w)) * 2 ^ (w - k % w) + x / 2 ^ (k % w)

theorem evalBV_binary {w v fuel : Nat} (hw : 1 ≤ w) (hv : v < 2 ^ w) :
    evalBV w (fuel + 1) (smtBinary w v) = some v := by
  show (if ('#' : Char) = '#' ∧ ('b' : Char) = 'b' ∧ (rustBinPad w v).length = w
      then parseRadix 2 (rustBinPad w v) else none) = some v
  rw [if_pos ⟨rfl, rfl, rustBinPad_length hw hv⟩]
  exact parse_rustBinPad

theorem evalBV_op {w fuel : Nat} {op : String} {a b : SExpr} {va vb : Nat}
    (ha : evalBV w fuel a = some va) (hb : evalBV w fuel b = some vb) :
    evalBV w (fuel + 1) (.listE [.atom op, a, b])
      = if op = "bvor" then some (va ||| vb)
        else if op = "bvshl" then some ((va <<< vb) % 2 ^ w)
        else if op = "bvlshr" then some (va >>> vb)
        else if op = "bvurem" then some (if vb = 0 then va else va % vb)
        else if op = "bvsub" then some ((va + (2 ^ w - vb)) % 2 ^ w)
        else none := by
  simp only [evalBV, ha, hb]

theorem evalBV_bvor {w fuel : Nat} {a b : SExpr} {va vb : Nat}
    (ha : evalBV w fuel a = some va) (hb : evalBV w fuel b = some vb) :
    evalBV w (fuel + 1) (bvor a b) = some (va ||| vb) := by
  rw [show bvor a b = SExpr.listE [.atom "bvor", a, b] from rfl, evalBV_op ha hb,
    if_pos rfl]

theorem evalBV_bvshl {w fuel : Nat} {a b : SExpr} {va vb : Nat}
    (ha : evalBV w fuel a = some va) (hb : evalBV w fuel b = some vb) :
    evalBV w (fuel + 1) (bvshl a b) = some ((va <<< vb) % 2 ^ w) := by
  rw [show bvshl a b = SExpr.listE [.atom "bvshl", a, b] from rfl, evalBV_op ha hb,
    if_neg (by decide), if_pos rfl]

theorem evalBV_bvlshr {w fuel : Nat} {a b : SExpr} {va vb : Nat}
    (ha : evalBV w fuel a = some va) (hb : evalBV w fuel b = some vb) :
    evalBV w (fuel + 1) (bvlshr a b) = some (va >>> vb) := by
  rw [show bvlshr a b = SExpr.listE [.atom "bvlshr", a, b] from rfl, evalBV_op ha hb,
    if_neg (by decide), if_neg (by decide), if_pos rfl]

theorem evalBV_bvurem {w fuel : Nat} {a b : SExpr} {va vb : Nat}
    (ha : evalBV w fuel a = some va) (hb : evalBV w fuel b = some vb) :
    evalBV w (fuel + 1) (bvurem a b) = some (if vb = 0 then va else va % vb) := by
  rw [show bvurem a b = SExpr.listE [.atom "bvurem", a, b] from rfl, evalBV_op ha hb,
    if_neg (by decide), if_neg (by decide), if_neg (by decide), if_pos rfl]

theorem evalBV_bvsub {w fuel : Nat} {a b : SExpr} {va vb : Nat}
    (ha : evalBV w fuel a = some va) (hb : evalBV w fuel b = some vb) :
    evalBV w (fuel + 1) (bvsub a b) = some ((va + (2 ^ w - vb)) % 2 ^ w) := by
  rw [show bvsub a b = SExpr.listE [.atom "bvsub", a, b] from rfl, evalBV_op ha hb,
    if_neg (by decide), if_neg (by decide), if_neg (by decide), if_neg (by decide),
    if_pos rfl]

theorem shiftOr_eq_rot {w s x : Nat} (hx : x < 2 ^ w) (hs : s ≤ w) :
    ((x <<< s) % 2 ^ w) ||| (x >>> (w - s))
      = (x % 2 ^ (w - s)) * 2 ^ s + x / 2 ^ (w - s) := by
  have hts : 2 ^ (w - s) * 2 ^ s = 2 ^ w := by
    rw [← pow_add]
    congr 1
    omega
  have hmod : (x <<< s) % 2 ^ w = (x % 2 ^ (w - s)) * 2 ^ s := by
    rw [Nat.shiftLeft_eq]
    have hsplit : x * 2 ^ s
        = (x / 2 ^ (w - s)) * 2 ^ w + (x % 2 ^ (w - s)) * 2 ^ s := by
      calc x * 2 ^ s
          = ((x / 2 ^ (w - s)) * 2 ^ (w - s) + x % 2 ^ (w - s)) * 2 ^ s := by
            rw [Nat.div_add_mod']
        _ = (x / 2 ^ (w - s)) * (2 ^ (w - s) * 2 ^ s)
            + (x % 2 ^ (w - s)) * 2 ^ s := by ring
        _ = (x / 2 ^ (w - s)) * 2 ^ w + (x % 2 ^ (w - s)) * 2 ^ s := by rw [hts]
    rw [hsplit, Nat.mul_comm (x / 2 ^ (w - s)) (2 ^ w), Nat.mul_add_mod]
    exact Nat.mod_eq_of_lt (by
      calc (x % 2 ^ (w - s)) * 2 ^ s
          < 2 ^ (w - s) * 2 ^ s :=
            mul_lt_mul_of_pos_right (Nat.mod_lt _ (Nat.two_pow_pos _))
              (Nat.two_pow_pos s)
        _ = 2 ^ w := hts)
  have hshr : x >>> (w - s) = x / 2 ^ (w - s) := Nat.shiftRight_eq_div_pow x (w - s)
  have hlt : x / 2 ^ (w - s) < 2 ^ s := by
    rw [Nat.div_lt_iff_lt_mul (Nat.two_pow_pos _)]
    calc x < 2 ^ w := hx
      _ = 2 ^ s * 2 ^ (w - s) := by
        rw [← pow_add]
        congr 1
        omega
  rw [hmod, hshr, Nat.mul_comm (x % 2 ^ (w - s)) (2 ^ s)]
  exact (Nat.mul_add_lt_is_or hlt _).symm

/-- C6: for every width `w ≥ 1` and all `w`-bit values `x, k`, the formula
`encode_rotate` produces for a left rotation evaluates (under SMT-LIB
bit-vector semantics) to `(x << (k mod w)) | (x >> (w - (k mod w)))` on
`w`-bit vectors, the right-rotation encoding is the mirror image, and each
agrees with true rotation of `x` by `k`. -/
theorem c6_encode_rotate_correct :
    ∀ w x k fuel : Nat, 1 ≤ w → x < 2 ^ w → k < 2 ^ w →
      evalBV w (fuel + 5) (encodeRotate .left (smtBinary w x) (smtBinary w k) w)
          = some (((x <<< (k % w)) % 2 ^ w) ||| (x >>> (w - k % w)))
        ∧ ((x <<< (k % w)) % 2 ^ w) ||| (x >>> (w - k % w)) = rotateLeftSpec w x k
        ∧ evalBV w (fuel + 5) (encodeRotate .right (smtBinary w x) (smtBinary w k) w)
          = some (((x <<< (w - k % w)) % 2 ^ w) ||| (x >>> (k % w)))
        ∧ ((x <<< (w - k % w)) % 2 ^ w) ||| (x >>> (k % w)) = rotateRightSpec w x k := by
  intro w x k fuel hw hx hk
  have hw0 : w ≠ 0 := by omega
  have hww : w < 2 ^ w := Nat.lt_two_pow w
  have hmodlt : k % w < w := Nat.mod_lt _ (by omega)
  have hsubEq : (w + (2 ^ w - k % w)) % 2 ^ w = w - k % w := by
    have h1 : w + (2 ^ w - k % w) = 2 ^ w + (w - k % w) := by omega
    rw [h1, Nat.add_mod_left]
    exact Nat.mod_eq_of_lt (by omega)
  have hsrc3 : evalBV w (fuel + 3) (smtBinary w x) = some x := evalBV_binary hw hx
  have hamt2 : evalBV w (fuel + 2) (smtBinary w k) = some k := evalBV_binary hw hk
  have hwbv2 : evalBV w (fuel + 2) (smtBinary w w) = some w := evalBV_binary hw hww
  have hamt1 : evalBV w (fuel + 1) (smtBinary w k) = some k := evalBV_binary hw hk
  have hwbv1 : evalBV w (fuel + 1) (smtBinary w w) = some w := evalBV_binary hw hww
  have hurem3 : evalBV w (fuel + 3)
      (bvurem (smtBinary w k) (smtBinary w w)) = some (k % w) := by
    rw [evalBV_bvurem hamt2 hwbv2, if_neg hw0]
  have hurem2 : evalBV w (fuel + 2)
      (bvurem (smtBinary w k) (smtBinary w w)) = some (k % w) := by
    rw [evalBV_bvurem hamt1 hwbv1, if_neg hw0]
  have hsub3 : evalBV w (fuel + 3)
      (bvsub (smtBinary w w) (bvurem (smtBinary w k) (smtBinary w w)))
      = some (w - k % w) := by
    rw [evalBV_bvsub hwbv2 hurem2, hsubEq]
  have hshl4 : evalBV w (fuel + 4)
      (bvshl (smtBinary w x) (bvurem (smtBinary w k) (smtBinary w w)))
      = some ((x <<< (k % w)) % 2 ^ w) := evalBV_bvshl hsrc3 hurem3
  have hlshr4 : evalBV w (fuel + 4)
      (bvlshr (smtBinary w x)
        (bvsub (smtBinary w w) (bvurem (smtBinary w k) (smtBinary w w))))
      = some (x >>> (w - k % w)) := evalBV_bvlshr hsrc3 hsub3
  have hshl4r : evalBV w (fuel + 4)
      (bvshl (smtBinary w x)
        (bvsub (smtBinary w w) (bvurem (smtBinary w k) (smtBinary w w))))
      = some ((x <<< (w - k % w)) % 2 ^ w) := evalBV_bvshl hsrc3 hsub3
  have hlshr4r : evalBV w (fuel + 4)
      (bvlshr (smtBinary w x) (bvurem (smtBinary w k) (smtBinary w w)))
      = some (x >>> (k % w)) := evalBV_bvlshr hsrc3 hurem3
  refine ⟨?_, ?_, ?_, ?_⟩
  · rw [show encodeRotate .left (smtBinary w x) (smtBinary w k) w
        = bvor (bvshl (smtBinary w x) (bvurem (smtBinary w k) (smtBinary w w)))
            (bvlshr (smtBinary w x)
              (bvsub (smtBinary w w) (bvurem (smtBinary w k) (smtBinary w w))))
      from rfl]
    exact evalBV_bvor hshl4 hlshr4
  · exact shiftOr_eq_rot hx (le_of_lt hmodlt)
  · rw [show encodeRotate .right (smtBinary w x) (smtBinary w k) w
        = bvor (bvshl (smtBinary w x)
            (bvsub (smtBinary w w) (bvurem (smtBinary w k) (smtBinary w w))))
            (bvlshr (smtBinary w x) (bvurem (smtBinary w k) (smtBinary w w)))
      from rfl]
    exact evalBV_bvor hshl4r hlshr4r
  · have h := shiftOr_eq_rot (s := w - k % w) hx (Nat.sub_le w _)
    rw [show w - (w - k % w) = k % w from by omega] at h
    exact h

/-- Witness for C6: an 8-bit rotation with `x = 171`, `k = 3`: both
directions evaluate to the true rotation. -/
theorem c6_encode_rotate_correct_witness :
    ((1 : Nat) ≤ 8 ∧ (171 : Nat) < 2 ^ 8 ∧ (3 : Nat) < 2 ^ 8)
    ∧ evalBV 8 5 (encodeRotate .left (smtBinary 8 171) (smtBinary 8 3) 8)
        = some (rotateLeftSpec 8 171 3)
    ∧ evalBV 8 5 (encodeRotate .right (smtBinary 8 171) (smtBinary 8 3) 8)
        = some (rotateRightSpec 8 171 3) := by
  have h := c6_encode_rotate_correct 8 171 3 0 (by decide) (by decide) (by decide)
  refine ⟨⟨by decide, by decide, by decide⟩, ?_, ?_⟩
  · rw [h.1, h.2.1]
  · rw [h.2.2.1, h.2.2.2]

/-- Witness for C7 (amended): the round-trip at `Int(255)` and the 8-bit
vector `0xFF`. -/
theorem c7_constant_round_trip_restricted_witness :
    ((0 : Int) ≤ 255 ∧ (255 : Int) < 2 ^ 127
      ∧ (1 : Nat) ≤ 8 ∧ (255 : Nat) < 2 ^ 8 ∧ (255 : Nat) < 2 ^ 128)
    ∧ (∃ s, solverConstant (.int 255) = .ok s
        ∧ constFromLiteral s = .ok (.int 255))
    ∧ (∃ s, solverConstant (.bitVector 8 255) = .ok s
        ∧ constFromLiteral s = .ok (.bitVector 8 255)) :=
  ⟨⟨by decide, by norm_num, by decide, by decide, by norm_num⟩,
    c7_constant_round_trip_restricted.2.1 255 (by decide) (by norm_num),
    c7_constant_round_trip_restricted.2.2 8 255 (by decide) (by decide) (by norm_num)⟩

end Veri
